import Mathlib

/-!
DBoW2 demo programs: vocabulary-construction pipeline

A shallow embedding of the demo programs `make_orb_vocabulary.cpp`,
`make_sift_vocabulary.cpp` and `yaml_to_txt.cpp`.

* A `cv::Mat` is its row count, column count and its continuous row-major
  buffer.  A `memcpy` is a bounds-checked block read followed by a
  bounds-checked block write; an access outside a buffer yields `none`.
* Calls into OpenCV, Boost.Filesystem, CudaSift and the DBoW2 library are
  parameters of the model (the fields of the `...World` structures).
* Console output and device-resource calls are recorded, in program order,
  in a trace of `Event`s.
* `int` variables are integers wrapped to 32 bits by `toInt32`.
* Calls that can leave `loadFeatures` by an exception do so in the embedding:
  the directory traversal, `features.reserve`, `fs::is_directory` (the
  throwing overload) and `ExtractSift`; `Flow.raised` is such an exit.
-/

namespace DBoW2

/-! ## Matrices and buffers -/

/-- A `cv::Mat` header together with its continuous row-major buffer. -/
structure Mat (α : Type) where
  rows : Nat
  cols : Nat
  data : List α
deriving DecidableEq, Repr

/-- The buffer of a matrix holds exactly `rows * cols` elements. -/
def Mat.WellFormed {α : Type} (m : Mat α) : Prop :=
  m.data.length = m.rows * m.cols

instance {α : Type} (m : Mat α) : Decidable m.WellFormed := by
  unfold Mat.WellFormed; exact inferInstance

/-- The default-constructed `cv::Mat()`. -/
def Mat.empty {α : Type} : Mat α := ⟨0, 0, []⟩

/-- Offset, in elements, of the first element of row `i` (`plain.row(i).data`). -/
def Mat.rowOffset {α : Type} (m : Mat α) (i : Nat) : Nat := i * m.cols

/-- The header `m.row(i)`: one row, `m.cols` columns, starting at `rowOffset i`. -/
def Mat.row {α : Type} (m : Mat α) (i : Nat) : Mat α :=
  ⟨1, m.cols, (m.data.drop (m.rowOffset i)).take m.cols⟩

/-- Element `(i, j)` of a matrix, read from the buffer. -/
def Mat.at? {α : Type} (m : Mat α) (i j : Nat) : Option α :=
  m.data[m.rowOffset i + j]?

/-- The member `std::vector::resize(n)`, new elements being copies of `fill`. -/
def resize {α : Type} (v : List α) (n : Nat) (fill : α) : List α :=
  v.take n ++ List.replicate (n - v.length) fill

/-- Read side of `memcpy`: `n` elements starting at offset `off` of `src`. -/
def memRead {α : Type} (src : List α) (off n : Nat) : Option (List α) :=
  if off + n ≤ src.length then some ((src.drop off).take n) else none

/-- Write side of `memcpy`: overwrite `dst` from offset `off` with `block`. -/
def memWrite {α : Type} (dst : List α) (off : Nat) (block : List α) : Option (List α) :=
  if off + block.length ≤ dst.length then
    some (dst.take off ++ block ++ dst.drop (off + block.length))
  else none

/-- One byte of a binary descriptor (`CV_8U`). -/
abbrev Byte := Nat

/-- One `float` (`CV_32F`), as its 32-bit pattern; `0` is `0.0f`. -/
abbrev F32 := Nat

/-! ## `changeStructure` of `make_orb_vocabulary.cpp` -/

namespace Orb

/-- The loop `for(int i = 0; i < plain.rows; ++i) out[i] = plain.row(i);`
with `k` iterations left, the counter at `i`. -/
def changeStructureLoop (plain : Mat Byte) : Nat → Nat → List (Mat Byte) → List (Mat Byte)
  | 0, _, out => out
  | k + 1, i, out => changeStructureLoop plain k (i + 1) (out.set i (plain.row i))

/-- The function `changeStructure(plain, out)`; returns the new value of `out`. -/
def changeStructure (plain : Mat Byte) (out : List (Mat Byte)) : List (Mat Byte) :=
  changeStructureLoop plain plain.rows 0 (resize out plain.rows Mat.empty)

end Orb

/-! ## `changeStructure` and `copyCUDAFeatures` of `make_sift_vocabulary.cpp` -/

namespace Sift

/-- The loop of `changeStructure`: `out[i].resize(128)` and a `memcpy` of
`128*sizeof(float)` bytes from `plain.row(i).data` to `out[i].data()`. -/
def changeStructureLoop (plain : Mat F32) :
    Nat → Nat → List (List F32) → Option (List (List F32))
  | 0, _, out => some out
  | k + 1, i, out =>
    let outi := resize (out.getD i []) 128 0
    match memRead plain.data (plain.rowOffset i) 128 with
    | none => none
    | some block =>
      match memWrite outi 0 block with
      | none => none
      | some outi2 => changeStructureLoop plain k (i + 1) (out.set i outi2)

/-- The function `changeStructure(plain, out)`; `none` when a `memcpy` leaves
its buffers. -/
def changeStructure (plain : Mat F32) (out : List (List F32)) : Option (List (List F32)) :=
  changeStructureLoop plain plain.rows 0 (resize out plain.rows [])

/-- A `SiftPoint`, reduced to its descriptor array `float data[128]`. -/
structure SiftPoint where
  data : List F32
  data_size : data.length = 128

/-- A `SiftData`: the number of points found, the capacity, and the host
buffer of points (`h_data`, or `m_data` under `MANAGEDMEM`). -/
structure SiftData where
  numPts : Nat
  maxPts : Nat
  h_data : List SiftPoint

/-- The loop of `copyCUDAFeatures`: a `memcpy` of `128*sizeof(float)` bytes
from `sift[i].data` to `descriptors.row(i).data`. -/
def copyCUDAFeaturesLoop (sift : List SiftPoint) :
    Nat → Nat → Mat F32 → Option (Mat F32)
  | 0, _, descriptors => some descriptors
  | k + 1, i, descriptors =>
    match sift[i]? with
    | none => none
    | some p =>
      match memRead p.data 0 128 with
      | none => none
      | some block =>
        match memWrite descriptors.data (descriptors.rowOffset i) block with
        | none => none
        | some buf => copyCUDAFeaturesLoop sift k (i + 1) { descriptors with data := buf }

/-- The function `copyCUDAFeatures(descriptors, data)`; returns the new
`descriptors`, `none` when a `memcpy` leaves its buffers. -/
def copyCUDAFeatures (data : SiftData) : Option (Mat F32) :=
  copyCUDAFeaturesLoop data.h_data data.numPts 0
    ⟨data.numPts, 128, List.replicate (data.numPts * 128) 0⟩

end Sift

/-! ## Console output and device calls -/

/-- What the programs do to the outside world, in program order: lines on
standard output, and the CudaSift resource calls. -/
inductive Event where
  | header (text : String)
  | progress (i nimgs : Int)
  | filename (name : String)
  | initSiftData (maxPts : Nat)
  | freeSiftData
  | cudaImageAllocate (w h : Nat)
  | cudaImageDownload
  | allocSiftTempMemory (w h numOctaves : Nat)
  | extractSift
  | freeSiftTempMemory
deriving DecidableEq, Repr

/-- The line an event puts on standard output, if it is a print:
`cout << i << " of " << nimgs << std::endl` for `progress`. -/
def Event.render : Event → Option String
  | .header text => some text
  | .progress i nimgs => some (toString i ++ " of " ++ toString nimgs)
  | .filename name => some name
  | _ => none

/-- The pair `(i, nimgs)` of a progress line, `none` for any other event. -/
def Event.progress? : Event → Option (Int × Int)
  | .progress i nimgs => some (i, nimgs)
  | _ => none

/-- The file name of a `cout << filename` line, `none` for any other event. -/
def Event.filename? : Event → Option String
  | .filename name => some name
  | _ => none

/-- A value converted to, or computed in, the 32-bit type `int`. -/
def toInt32 (n : Int) : Int := (n + 2147483648) % 4294967296 - 2147483648

/-- How a piece of code ends: it runs to its end, or an exception leaves it
(`what` describes it); `s` is the state reached. -/
inductive Flow (σ : Type) where
  | normal (s : σ)
  | raised (s : σ) (what : String)

/-! ## The scan loop of `loadFeatures` (both programs) -/

/-- What the call `fs::is_directory(*it)` does.  It is the overload that
throws: it returns its answer, or it throws `filesystem_error` when the
status of the path cannot be read (a symbolic link that loops, a directory
that may not be searched). -/
inductive IsDirectory where
  | returns (answer : Bool)
  | throws (what : String)
deriving DecidableEq, Repr

/-- One element of the vector `v` of paths: the path as a string, what
`extension()` returns for it, and what `fs::is_directory` does on it. -/
structure DirEntry where
  path : String
  extension : String
  isDirectory : IsDirectory
deriving DecidableEq, Repr

/-- A decoded greyscale image. -/
abbrev Image := Mat Byte

/-- The part of `loadFeatures` in which the two programs differ: `imread`,
the extraction of a descriptor matrix from an image (with the extractor's
context of type `C`), and `changeStructure`. -/
structure Pipeline (C E D : Type) where
  imread : String → Image
  extract : C → Image → List Event × Except String (C × Mat E)
  changeStructure : Mat E → List D → Option (List D)

/-- The variables of the scan loop: the iterator `it` (as a position in
`v`), the counter `i`, the extractor context, `features`, and the trace. -/
structure ScanState (C D : Type) where
  it : Nat
  i : Int
  ctx : C
  features : List (List D)
  trace : List Event

/-- The test `it->extension() != ".png" && it->extension() != ".PNG"`. -/
def wrongExtension (e : DirEntry) : Bool :=
  e.extension != ".png" && e.extension != ".PNG"

/-- The test `!(img.rows > 0 && img.cols > 0)`. -/
def notLoaded (img : Image) : Bool :=
  !(decide (img.rows > 0) && decide (img.cols > 0))

/-- One iteration of `while (it != v.end())`, where `e` is `*it`. -/
def loopBody {C E D : Type} (p : Pipeline C E D) (nimgs : Int) (e : DirEntry)
    (st : ScanState C D) : Flow (ScanState C D) :=
  let st1 : ScanState C D :=
    { st with trace := st.trace ++ [Event.progress st.i nimgs], i := toInt32 (st.i + 1) }
  match e.isDirectory with
  | .throws what => .raised st1 what
  | .returns true => .normal { st1 with it := st1.it + 1 }
  | .returns false =>
    if wrongExtension e then
      .normal { st1 with it := st1.it + 1 }
    else
      let filename := e.path
      let st2 : ScanState C D := { st1 with trace := st1.trace ++ [Event.filename filename] }
      let img := p.imread filename
      if notLoaded img then
        .normal { st2 with it := st2.it + 1 }
      else
        match p.extract st2.ctx img with
        | (evs, .error what) => .raised { st2 with trace := st2.trace ++ evs } what
        | (evs, .ok (ctx, descriptors)) =>
          let st3 : ScanState C D := { st2 with ctx := ctx, trace := st2.trace ++ evs }
          match p.changeStructure descriptors [] with
          | none => .raised st3 "memcpy outside its buffers"
          | some back =>
            .normal { st3 with features := st3.features ++ [back], it := st3.it + 1 }

/-- The loop `while (it != v.end()) { ... }`, run for at most `fuel`
iterations; `none` when the fuel runs out before the loop ends. -/
def scanLoop {C E D : Type} (p : Pipeline C E D) (nimgs : Int) (v : List DirEntry) :
    Nat → ScanState C D → Option (Flow (ScanState C D))
  | fuel, st =>
    if st.it = v.length then some (.normal st)
    else
      match fuel with
      | 0 => none
      | fuel + 1 =>
        match v[st.it]? with
        | none => none
        | some e =>
          match loopBody p nimgs e st with
          | .normal st2 => scanLoop p nimgs v fuel st2
          | .raised st2 what => some (.raised st2 what)

/-- What `loadFeatures` leaves behind: `features` and the trace. -/
structure Loaded (D : Type) where
  features : List (List D)
  trace : List Event

/-- From `copy(fs::recursive_directory_iterator(img_dir), ...)` to the end of
the scan loop: `listing` is the outcome of the directory traversal, `ctx`
the extractor context and `trace` the events so far. -/
def scanDirectory {C E D : Type} (p : Pipeline C E D) (title : String)
    (listing : Except String (List DirEntry)) (ctx : C) (trace : List Event)
    (fuel : Nat) : Option (Flow (ScanState C D)) :=
  match listing with
  | .error what => some (.raised ⟨0, 0, ctx, [], trace⟩ what)
  | .ok v =>
    let nimgs := toInt32 v.length
    -- `features.reserve(nimgs)`: a negative `int` becomes a size above `max_size()`
    if nimgs < 0 then some (.raised ⟨0, 0, ctx, [], trace⟩ "std::length_error")
    else scanLoop p nimgs v fuel ⟨0, 1, ctx, [], trace ++ [Event.header title]⟩

/-! ## `loadFeatures` of `make_orb_vocabulary.cpp` -/

namespace Orb

/-- The library calls of `make_orb_vocabulary.cpp`. -/
structure World where
  listing : String → Except String (List DirEntry)
  imread : String → Image
  detectAndCompute : Image → Mat Byte

/-- The ORB pipeline: `orb->detectAndCompute(img, mask, keypoints, descriptors)`
and `changeStructure(descriptors, features.back())`. -/
def pipeline (w : World) : Pipeline Unit Byte (Mat Byte) where
  imread := w.imread
  extract := fun _ img => ([], .ok ((), w.detectAndCompute img))
  changeStructure := fun plain out => some (changeStructure plain out)

/-- The function `loadFeatures(features, img_dir)`. -/
def loadFeatures (w : World) (img_dir : String) (fuel : Nat) :
    Option (Flow (Loaded (Mat Byte))) :=
  match scanDirectory (pipeline w) "Extracting ORB features..." (w.listing img_dir) () [] fuel with
  | none => none
  | some (.normal st) => some (.normal ⟨st.features, st.trace⟩)
  | some (.raised st what) => some (.raised ⟨st.features, st.trace⟩ what)

end Orb

/-! ## `loadFeatures` and `computeFeatures` of `make_sift_vocabulary.cpp` -/

namespace Sift

/-- The library calls of `make_sift_vocabulary.cpp`.  A call of `ExtractSift`
either returns the updated `SiftData` or does not return to its caller
(a device error; `.error`). -/
structure World where
  listing : String → Except String (List DirEntry)
  imread : String → Image
  initSiftData : Nat → SiftData
  extractSift : SiftData → Image → Except String SiftData

/-- The function `computeFeatures(I, siftdata)`: the events of the call and
the new `siftdata`. -/
def computeFeatures (w : World) (I : Image) (siftdata : SiftData) :
    List Event × Except String SiftData :=
  let before : List Event :=
    [Event.cudaImageAllocate I.cols I.rows, Event.cudaImageDownload,
     Event.allocSiftTempMemory (I.cols * 2) (I.rows * 2) 5, Event.extractSift]
  match w.extractSift siftdata I with
  | .error what => (before, .error what)
  | .ok siftdata2 => (before ++ [Event.freeSiftTempMemory], .ok siftdata2)

/-- Lines 137 to 142 of `loadFeatures`: `computeFeatures(img, sdata)` and
`copyCUDAFeatures(descriptors, sdata)`. -/
def extract (w : World) (sdata : SiftData) (img : Image) :
    List Event × Except String (SiftData × Mat F32) :=
  match computeFeatures w img sdata with
  | (evs, .error what) => (evs, .error what)
  | (evs, .ok sdata2) =>
    match copyCUDAFeatures sdata2 with
    | none => (evs, .error "memcpy outside its buffers")
    | some descriptors => (evs, .ok (sdata2, descriptors))

/-- The SIFT pipeline. -/
def pipeline (w : World) : Pipeline SiftData F32 (List F32) where
  imread := w.imread
  extract := extract w
  changeStructure := changeStructure

/-- The function `loadFeatures(features, img_dir)`. -/
def loadFeatures (w : World) (img_dir : String) (fuel : Nat) :
    Option (Flow (Loaded (List F32))) :=
  match scanDirectory (pipeline w) "Extracting SIFT features..." (w.listing img_dir)
      (w.initSiftData 2000) [Event.initSiftData 2000] fuel with
  | none => none
  | some (.normal st) => some (.normal ⟨st.features, st.trace ++ [Event.freeSiftData]⟩)
  | some (.raised st what) => some (.raised ⟨st.features, st.trace⟩ what)

end Sift

/-! ## `main` of `yaml_to_txt.cpp` -/

namespace YamlToTxt

/-- What the converter does to the outside world, in program order. -/
inductive Event (V : Type) where
  | stdout (text : String)
  | stdoutVoc (voc : V)
  | stderr (text : String)
  | saveToTextFile (voc : V) (file : String)
deriving DecidableEq, Repr

/-- Outcome of `voc.load(file)`: the vocabulary is loaded, or the call throws
a `std::string`, or it throws an exception of another type. -/
inductive LoadOutcome (V : Type) where
  | loaded (voc : V)
  | threwString (exc : String)
  | threwOther (what : String)

/-- The DBoW2 library as the converter uses it: the vocabulary constructed
by `SiftVocabulary voc(k, L, weight, scoring)` and `voc.load(file)`. -/
structure World (V : Type) where
  construct : Nat → Nat → V
  load : V → String → LoadOutcome V

/-- The function `ShowUsage(name)`. -/
def ShowUsage {V : Type} (name : String) : Event V :=
  .stderr ("Usage: " ++ name ++ " base_directory")

/-- The function `main(argc, argv)`, with `argc = argv.length`: the events of
the run and the exit code (`none` when an uncaught exception ends the run). -/
def main {V : Type} (w : World V) (argv : List String) : List (Event V) × Option Int :=
  let argc := argv.length
  if argc ≠ 1 ∧ argc ≠ 2 then ([ShowUsage (argv.headD "")], some 0)
  else if argc = 2 then
    let base_dir := argv.getD 1 ""
    let k := 10
    let L := 6
    let voc := w.construct k L
    let file := base_dir ++ "/sift_voc.yml.gz"
    let out1 : List (Event V) := [.stdout "Retrieving yaml vocabulary..."]
    match w.load voc file with
    | .threwOther _ => (out1, none)
    | .threwString exc =>
      (out1 ++ [.stderr exc, .stdout "... done! Vocabulary info: ", .stdoutVoc voc,
        .stdout "Saving vocabulary as txt...",
        .saveToTextFile voc (base_dir ++ "/SIFTvoc.txt")], some 0)
    | .loaded voc2 =>
      (out1 ++ [.stdout "... done! Vocabulary info: ", .stdoutVoc voc2,
        .stdout "Saving vocabulary as txt...",
        .saveToTextFile voc2 (base_dir ++ "/SIFTvoc.txt")], some 0)
  else ([ShowUsage (argv.headD "")], some 0)

end YamlToTxt

/-! ## Reference notions the properties are stated with -/

/-- The state a piece of code ended in, however it ended. -/
def Flow.state {σ : Type} : Flow σ → σ
  | .normal s => s
  | .raised s _ => s

/-- The body of the scan loop run once on each entry of a list, from first to
last, stopping at the first exception. -/
def runBodies {C E D : Type} (p : Pipeline C E D) (nimgs : Int) :
    List DirEntry → ScanState C D → Flow (ScanState C D)
  | [], st => .normal st
  | e :: rest, st =>
    match loopBody p nimgs e st with
    | .normal st2 => runBodies p nimgs rest st2
    | .raised st2 what => .raised st2 what

/-- An entry whose file the loop opens: `fs::is_directory` answers `false`
and the extension test accepts it. -/
def opened (e : DirEntry) : Bool :=
  decide (e.isDirectory = .returns false) && !wrongExtension e

/-- An entry that reaches the extractor: its file is opened and decodes to
an image with both dimensions positive. -/
def processed {C E D : Type} (p : Pipeline C E D) (e : DirEntry) : Bool :=
  opened e && !notLoaded (p.imread e.path)

/-- Every call of `fs::is_directory` on the entries of a listing returns. -/
def StatReturns (v : List DirEntry) : Prop :=
  ∀ e, e ∈ v → ∃ answer, e.isDirectory = .returns answer

/-- The decoded images of a listing, in listing order. -/
def corpusImages {C E D : Type} (p : Pipeline C E D) (v : List DirEntry) : List Image :=
  (v.filter (processed p)).map (fun e => p.imread e.path)

/-- The descriptor matrices of a sequence of images: the extractor is called
on each image in turn, with the context the call before left behind. -/
def descriptorMatrices {C E D : Type} (p : Pipeline C E D) : List Image → C → List (Mat E)
  | [], _ => []
  | img :: rest, c =>
    match p.extract c img with
    | (_, .ok (c2, m)) => m :: descriptorMatrices p rest c2
    | (_, .error _) => []

/-- No call of the extractor fails, and `changeStructure` turns each matrix it
returns into as many descriptors as the matrix has rows. -/
def Pipeline.Reliable {C E D : Type} (p : Pipeline C E D) : Prop :=
  ∀ c img, ∃ c2 m back, (p.extract c img).2 = .ok (c2, m) ∧
    p.changeStructure m [] = some back ∧ back.length = m.rows

/-- The extractor prints nothing on standard output. -/
def Pipeline.Quiet {C E D : Type} (p : Pipeline C E D) : Prop :=
  ∀ c img ev, ev ∈ (p.extract c img).1 → ev.render = none

/-- The `features` a run of `loadFeatures` left behind. -/
def featuresOf {D : Type} : Option (Flow (Loaded D)) → Option (List (List D))
  | none => none
  | some f => some f.state.features

/-- The events of a run of `loadFeatures`. -/
def traceOf {D : Type} : Option (Flow (Loaded D)) → List Event
  | none => []
  | some f => f.state.trace

/-- The run of `loadFeatures` came to its end and returned to `main`. -/
def returned {D : Type} : Option (Flow (Loaded D)) → Bool
  | some (.normal _) => true
  | _ => false

/-- The image paths a run opened, in order (its `cout << filename` lines). -/
def openedPaths {D : Type} (run : Option (Flow (Loaded D))) : List String :=
  (traceOf run).filterMap Event.filename?

/-- Two strings are equal up to the case of their ASCII letters. -/
def equalsIgnoreCase (a b : String) : Bool :=
  a.data.map Char.toLower == b.data.map Char.toLower

/-- The events of a trace that are not prints: the CudaSift calls, in order. -/
def deviceEvents (trace : List Event) : List Event :=
  trace.filter (fun ev => ev.render.isNone)

/-- The CudaSift calls of one `computeFeatures(I, siftdata)` that runs to its
end: the image is set up, the temporary block is acquired, `ExtractSift`
runs, the temporary block is released. -/
def Sift.imageEvents (I : Image) : List Event :=
  [Event.cudaImageAllocate I.cols I.rows, Event.cudaImageDownload,
   Event.allocSiftTempMemory (I.cols * 2) (I.rows * 2) 5, Event.extractSift,
   Event.freeSiftTempMemory]

/-- The SIFT extractor always returns, with no more points than its host
buffer holds. -/
def Sift.World.Returns (w : Sift.World) : Prop :=
  ∀ s img, ∃ s2, w.extractSift s img = .ok s2 ∧ s2.numPts ≤ s2.h_data.length

/-! ## Concrete inputs -/

namespace Example

/-- A 2 x 3 binary descriptor matrix. -/
def plainBytes : Mat Byte := ⟨2, 3, [1, 2, 3, 4, 5, 6]⟩

/-- A 2 x 128 float matrix: a row of sevens and a row of nines. -/
def plainFloats : Mat F32 := ⟨2, 128, List.replicate 128 7 ++ List.replicate 128 9⟩

/-- A SIFT point whose 128 components all equal `x`. -/
def point (x : F32) : Sift.SiftPoint := ⟨List.replicate 128 x, List.length_replicate 128 x⟩

/-- Two points found, in a host buffer of three. -/
def twoPoints : Sift.SiftData := ⟨2, 3, [point 7, point 9, point 0]⟩

/-- Decoder of the examples: three readable images of 6, 1 and 9 rows; any
other file does not decode. -/
def imread (path : String) : Image :=
  if path = "d/1.png" then ⟨6, 1, [0, 0, 0, 0, 0, 0]⟩
  else if path = "d/2.png" then ⟨1, 1, [0]⟩
  else if path = "d/3.PNG" then ⟨9, 1, [0, 0, 0, 0, 0, 0, 0, 0, 0]⟩
  else Mat.empty

/-- Three images, found in this order. -/
def threeImages : List DirEntry :=
  [⟨"d/1.png", ".png", .returns false⟩, ⟨"d/2.png", ".png", .returns false⟩, ⟨"d/3.PNG", ".PNG", .returns false⟩]

/-- A directory, a text file, and a `.png` file that does not decode. -/
def mixedEntries : List DirEntry :=
  [⟨"d/sub", "", .returns true⟩, ⟨"d/notes.txt", ".txt", .returns false⟩, ⟨"d/bad.png", ".png", .returns false⟩]

/-- An ORB run over the listing `v`; an image of `r` rows yields `r - 1`
descriptors of 32 bytes. -/
def orbWorld (v : List DirEntry) : Orb.World where
  listing := fun _ => .ok v
  imread := imread
  detectAndCompute := fun img => ⟨img.rows - 1, 32, List.replicate ((img.rows - 1) * 32) 0⟩

/-- A SIFT run over the listing `v`; an image of `r` rows yields `r - 1` points. -/
def siftWorld (v : List DirEntry) : Sift.World where
  listing := fun _ => .ok v
  imread := imread
  initSiftData := fun maxPts => ⟨0, maxPts, []⟩
  extractSift := fun s img => .ok ⟨img.rows - 1, s.maxPts, List.replicate (img.rows - 1) (point 1)⟩

/-- An entry on which `fs::is_directory` throws: a symbolic link to itself. -/
def loopLink : DirEntry :=
  ⟨"d/loop", "", .throws "boost::filesystem::status: Too many levels of symbolic links"⟩

/-- A listing of 2^31 entries. -/
def hugeListing : List DirEntry :=
  List.replicate 2147483648 ⟨"d/1.png", ".png", .returns false⟩

/-- A SIFT run whose image directory does not exist. -/
def siftMissingDir : Sift.World where
  listing := fun _ => .error "boost::filesystem::directory_iterator::construct: No such file or directory"
  imread := imread
  initSiftData := fun maxPts => ⟨0, maxPts, []⟩
  extractSift := fun s _ => .ok s

/-- A SIFT run over two images on which `ExtractSift` meets a device error. -/
def siftDeviceError : Sift.World where
  listing := fun _ => .ok [⟨"d/1.png", ".png", .returns false⟩, ⟨"d/3.PNG", ".PNG", .returns false⟩]
  imread := imread
  initSiftData := fun maxPts => ⟨0, maxPts, []⟩
  extractSift := fun _ _ => .error "device error"

/-- A vocabulary library whose `load` cannot open the file; a vocabulary is
represented by its number of words. -/
def cannotOpen : YamlToTxt.World Nat where
  construct := fun _ _ => 0
  load := fun _ file => .threwString ("Could not open file " ++ file)

end Example

/-! ## Lemmas -/

theorem orb_loop_length (plain : Mat Byte) (k i : Nat) (out : List (Mat Byte)) :
    (Orb.changeStructureLoop plain k i out).length = out.length := by
  induction k generalizing i out with
  | zero => rfl
  | succ k ih => simp [Orb.changeStructureLoop, ih]

theorem orb_loop_getElem? (plain : Mat Byte) (k i : Nat) (out : List (Mat Byte)) (j : Nat) :
    (Orb.changeStructureLoop plain k i out)[j]? =
      if i ≤ j ∧ j < i + k ∧ j < out.length then some (plain.row j) else out[j]? := by
  induction k generalizing i out with
  | zero =>
    have h : ¬ (i ≤ j ∧ j < i + 0 ∧ j < out.length) := by omega
    simp only [Orb.changeStructureLoop, h, if_false]
  | succ k ih =>
    simp only [Orb.changeStructureLoop, ih, List.length_set, List.getElem?_set]
    by_cases h1 : i = j
    · subst h1
      by_cases h2 : i < out.length
      · simp [h2]
      · simp [h2]
        omega
    · by_cases h3 : i + 1 ≤ j ∧ j < i + 1 + k ∧ j < out.length
      · have h4 : i ≤ j ∧ j < i + (k + 1) ∧ j < out.length := by omega
        simp [h3, h4]
      · have h4 : ¬ (i ≤ j ∧ j < i + (k + 1) ∧ j < out.length) := by omega
        simp [h3, h4, h1]

theorem resize_length {α : Type} (v : List α) (n : Nat) (fill : α) :
    (resize v n fill).length = n := by
  simp [resize]; omega

theorem row_data_getElem? {α : Type} (m : Mat α) (i j : Nat) (hj : j < m.cols) :
    (m.row i).data[j]? = m.at? i j := by
  simp [Mat.row, Mat.at?, List.getElem?_take, hj]

theorem orb_rows_aux (plain : Mat Byte) (out : List (Mat Byte)) :
    (Orb.changeStructure plain out).length = plain.rows ∧
    ∀ i, i < plain.rows →
      (Orb.changeStructure plain out)[i]? = some (plain.row i) ∧
      ∀ j, j < plain.cols → (plain.row i).data[j]? = plain.at? i j := by
  refine ⟨?_, ?_⟩
  · simp [Orb.changeStructure, orb_loop_length, resize_length]
  · intro i hi
    refine ⟨?_, fun j hj => row_data_getElem? plain i j hj⟩
    simp [Orb.changeStructure, orb_loop_getElem?, resize_length, hi]


theorem memRead_eq_some {α : Type} (src : List α) (off n : Nat) (h : off + n ≤ src.length) :
    memRead src off n = some ((src.drop off).take n) := by
  simp [memRead, h]

theorem memWrite_whole {α : Type} (dst block : List α) (h : block.length = dst.length) :
    memWrite dst 0 block = some block := by
  simp [memWrite, h]

theorem memWrite_spec {α : Type} (dst : List α) (off : Nat) (block buf : List α)
    (h : memWrite dst off block = some buf) :
    buf.length = dst.length ∧
    ∀ idx, buf[idx]? =
      if off ≤ idx ∧ idx < off + block.length then block[idx - off]? else dst[idx]? := by
  unfold memWrite at h
  split at h
  · rename_i hle
    simp only [Option.some.injEq] at h
    subst h
    refine ⟨by simp; omega, fun idx => ?_⟩
    by_cases h1 : idx < off
    · have : ¬ (off ≤ idx ∧ idx < off + block.length) := by omega
      simp only [this, if_false]
      rw [List.append_assoc, List.getElem?_append_left (by simp; omega)]
      simp [List.getElem?_take, h1]
    · by_cases h2 : idx < off + block.length
      · have : off ≤ idx ∧ idx < off + block.length := by omega
        simp only [this, and_self, if_true]
        rw [List.append_assoc, List.getElem?_append_right (by simp; omega)]
        have hlen : (List.take off dst).length = off := by simp; omega
        rw [hlen, List.getElem?_append_left (by omega)]
      · have : ¬ (off ≤ idx ∧ idx < off + block.length) := by omega
        simp only [this, if_false]
        rw [List.getElem?_append_right (by simp; omega)]
        simp only [List.length_append, List.length_take, List.getElem?_drop]
        congr 1
        omega
  · simp at h

theorem sift_changeStructureLoop_spec (plain : Mat F32) (k i : Nat) (out : List (List F32))
    (hread : ∀ r, i ≤ r → r < i + k → plain.rowOffset r + 128 ≤ plain.data.length) :
    ∃ res, Sift.changeStructureLoop plain k i out = some res ∧ res.length = out.length ∧
      ∀ j, res[j]? =
        if i ≤ j ∧ j < i + k ∧ j < out.length then
          some ((plain.data.drop (plain.rowOffset j)).take 128)
        else out[j]? := by
  induction k generalizing i out with
  | zero =>
    refine ⟨out, rfl, rfl, fun j => ?_⟩
    have h : ¬ (i ≤ j ∧ j < i + 0 ∧ j < out.length) := by omega
    simp only [h, if_false]
  | succ k ih =>
    have hr := hread i (le_refl i) (by omega)
    have hlen : ((plain.data.drop (plain.rowOffset i)).take 128).length
        = (resize (out.getD i []) 128 0).length := by
      rw [resize_length]; simp; omega
    obtain ⟨res, h1, h2, h3⟩ := ih (i + 1)
      (out.set i ((plain.data.drop (plain.rowOffset i)).take 128))
      (fun r hr1 hr2 => hread r (by omega) (by omega))
    refine ⟨res, ?_, ?_, fun j => ?_⟩
    · simp only [Sift.changeStructureLoop, memRead_eq_some _ _ _ hr, memWrite_whole _ _ hlen]
      exact h1
    · simpa using h2
    · rw [h3 j]
      simp only [List.length_set, List.getElem?_set]
      by_cases e : i = j
      · subst e
        by_cases h2 : i < out.length
        · simp [h2]
        · simp [h2]
          omega
      · by_cases h4 : i + 1 ≤ j ∧ j < i + 1 + k ∧ j < out.length
        · have h5 : i ≤ j ∧ j < i + (k + 1) ∧ j < out.length := by omega
          simp [h4, h5]
        · have h5 : ¬ (i ≤ j ∧ j < i + (k + 1) ∧ j < out.length) := by omega
          simp [h4, h5, e]

theorem sift_rows_aux (plain : Mat F32) (out : List (List F32))
    (hcols : plain.cols = 128) (hwf : plain.WellFormed) :
    ∃ res, Sift.changeStructure plain out = some res ∧ res.length = plain.rows ∧
      ∀ i, i < plain.rows → ∃ v, res[i]? = some v ∧ v.length = 128 ∧
        ∀ j, j < 128 → v[j]? = plain.at? i j := by
  have hread : ∀ r, 0 ≤ r → r < 0 + plain.rows → plain.rowOffset r + 128 ≤ plain.data.length := by
    intro r _ hr
    unfold Mat.WellFormed at hwf
    rw [hwf, hcols]; unfold Mat.rowOffset; rw [hcols]; omega
  obtain ⟨res, h1, h2, h3⟩ :=
    sift_changeStructureLoop_spec plain plain.rows 0 (resize out plain.rows []) hread
  refine ⟨res, h1, by rw [h2, resize_length], fun i hi => ?_⟩
  refine ⟨(plain.data.drop (plain.rowOffset i)).take 128, ?_, ?_, fun j hj => ?_⟩
  · rw [h3 i]; simp [resize_length, hi]
  · have := hread i (Nat.zero_le i) (by omega)
    simp; omega
  · simp [Mat.at?, List.getElem?_take, hj]

theorem sift_copyLoop_shape (sift : List Sift.SiftPoint) (k i : Nat) (d res : Mat F32)
    (h : Sift.copyCUDAFeaturesLoop sift k i d = some res) :
    res.rows = d.rows ∧ res.cols = d.cols ∧ res.data.length = d.data.length := by
  induction k generalizing i d with
  | zero =>
    simp only [Sift.copyCUDAFeaturesLoop, Option.some.injEq] at h
    subst h; exact ⟨rfl, rfl, rfl⟩
  | succ k ih =>
    simp only [Sift.copyCUDAFeaturesLoop] at h
    split at h
    · simp at h
    · split at h
      · simp at h
      · split at h
        · simp at h
        · rename_i buf hbuf
          obtain ⟨h1, h2, h3⟩ := ih (i + 1) _ h
          exact ⟨h1, h2, by rw [h3]; exact (memWrite_spec _ _ _ _ hbuf).1⟩

theorem sift_copyLoop_spec (sift : List Sift.SiftPoint) (k i : Nat) (d : Mat F32)
    (hcols : d.cols = 128) (hs : i + k ≤ sift.length) (hd : (i + k) * 128 ≤ d.data.length) :
    ∃ res, Sift.copyCUDAFeaturesLoop sift k i d = some res ∧
      ∀ idx, res.data[idx]? =
        if i * 128 ≤ idx ∧ idx < (i + k) * 128 then
          (sift[idx / 128]?).bind (fun p => p.data[idx % 128]?)
        else d.data[idx]? := by
  induction k generalizing i d with
  | zero =>
    refine ⟨d, rfl, fun idx => ?_⟩
    have h : ¬ (i * 128 ≤ idx ∧ idx < (i + 0) * 128) := by omega
    simp only [h, if_false]
  | succ k ih =>
    have hi : i < sift.length := by omega
    have hp : sift[i]? = some sift[i] := List.getElem?_eq_getElem hi
    have hsz := (sift[i]).data_size
    have hrd : memRead (sift[i]).data 0 128 = some (sift[i]).data := by
      rw [memRead_eq_some _ _ _ (by omega)]
      simp [List.take_of_length_le (le_of_eq hsz)]
    have hoff : d.rowOffset i = i * 128 := by simp [Mat.rowOffset, hcols]
    have hw : ∃ buf, memWrite d.data (i * 128) (sift[i]).data = some buf := by
      simp only [memWrite, hsz]
      rw [if_pos (by omega)]
      exact ⟨_, rfl⟩
    obtain ⟨buf, hbuf⟩ := hw
    obtain ⟨hbl, hbg⟩ := memWrite_spec _ _ _ _ hbuf
    obtain ⟨res, h1, h2⟩ := ih (i + 1) { d with data := buf } hcols (by omega)
      (by simp only [hbl]; omega)
    refine ⟨res, ?_, fun idx => ?_⟩
    · simp only [Sift.copyCUDAFeaturesLoop, hp, hrd, hoff, hbuf]
      exact h1
    · rw [h2 idx]
      simp only [hbg idx, hsz]
      by_cases c1 : (i + 1) * 128 ≤ idx ∧ idx < (i + 1 + k) * 128
      · have c2 : i * 128 ≤ idx ∧ idx < (i + (k + 1)) * 128 := by omega
        simp only [c1, c2, and_self, if_true]
      · by_cases c3 : i * 128 ≤ idx ∧ idx < i * 128 + 128
        · have c2 : i * 128 ≤ idx ∧ idx < (i + (k + 1)) * 128 := by omega
          have c4 : idx / 128 = i := by omega
          have c5 : idx % 128 = idx - i * 128 := by omega
          simp only [c1, c2, c3, and_self, if_true, if_false, c4, c5, hp, Option.some_bind]
        · have c2 : ¬ (i * 128 ≤ idx ∧ idx < (i + (k + 1)) * 128) := by omega
          simp only [c1, c2, c3, if_false]

theorem sift_copy_shape (data : Sift.SiftData) (d : Mat F32)
    (h : Sift.copyCUDAFeatures data = some d) :
    d.rows = data.numPts ∧ d.cols = 128 ∧ d.WellFormed := by
  obtain ⟨h1, h2, h3⟩ := sift_copyLoop_shape _ _ _ _ _ h
  refine ⟨h1, h2, ?_⟩
  unfold Mat.WellFormed
  rw [h3, h1, h2]; simp

theorem sift_copy_changeStructure_eq (data : Sift.SiftData) (h : data.numPts ≤ data.h_data.length) :
    ∃ d, Sift.copyCUDAFeatures data = some d ∧
      Sift.changeStructure d [] = some ((data.h_data.take data.numPts).map (fun p => p.data)) := by
  obtain ⟨d, hd, hg⟩ := sift_copyLoop_spec data.h_data data.numPts 0
    ⟨data.numPts, 128, List.replicate (data.numPts * 128) 0⟩ rfl (by omega) (by simp)
  have hd2 : Sift.copyCUDAFeatures data = some d := hd
  obtain ⟨hr, hc, hwf⟩ := sift_copy_shape data d hd2
  obtain ⟨res, e1, e2, e3⟩ := sift_rows_aux d [] hc hwf
  refine ⟨d, hd2, ?_⟩
  rw [e1]
  congr 1
  apply List.ext_getElem?
  intro i
  by_cases hi : i < data.numPts
  · obtain ⟨v, hv1, hv2, hv3⟩ := e3 i (by omega)
    have hil : i < data.h_data.length := by omega
    rw [hv1]
    simp only [List.getElem?_map, List.getElem?_take, hi, if_true,
      List.getElem?_eq_getElem hil, Option.map_some']
    congr 1
    apply List.ext_getElem?
    intro j
    by_cases hj : j < 128
    · rw [hv3 j hj]
      have c1 : 0 * 128 ≤ i * 128 + j ∧ i * 128 + j < (0 + data.numPts) * 128 := by omega
      have c4 : (i * 128 + j) / 128 = i := by omega
      have c5 : (i * 128 + j) % 128 = j := by omega
      simp only [Mat.at?, Mat.rowOffset, hc, hg, c1, and_self, if_true, c4, c5,
        List.getElem?_eq_getElem hil, Option.some_bind]
    · have hsz := (data.h_data[i]).data_size
      rw [List.getElem?_eq_none (by omega), List.getElem?_eq_none (by omega)]
  · rw [List.getElem?_eq_none (by omega), List.getElem?_eq_none (by simp; omega)]

theorem processed_returns {C E D : Type} (p : Pipeline C E D) (e : DirEntry)
    (h : processed p e = true) :
    e.isDirectory = .returns false ∧ wrongExtension e = false ∧
      notLoaded (p.imread e.path) = false := by
  simp only [processed, opened, Bool.and_eq_true, decide_eq_true_eq, Bool.not_eq_true'] at h
  exact ⟨h.1.1, h.1.2, h.2⟩

theorem loopBody_throws {C E D : Type} (p : Pipeline C E D) (nimgs : Int) (e : DirEntry)
    (st : ScanState C D) (what : String) (h : e.isDirectory = .throws what) :
    loopBody p nimgs e st = .raised
      { st with trace := st.trace ++ [Event.progress st.i nimgs], i := toInt32 (st.i + 1) }
      what := by
  simp [loopBody, h]

theorem loopBody_skip {C E D : Type} (p : Pipeline C E D) (nimgs : Int) (e : DirEntry)
    (st : ScanState C D) (answer : Bool) (hret : e.isDirectory = .returns answer)
    (h : processed p e = false) :
    loopBody p nimgs e st = .normal
      ⟨st.it + 1, toInt32 (st.i + 1), st.ctx, st.features,
        st.trace ++ Event.progress st.i nimgs ::
          (if opened e then [Event.filename e.path] else [])⟩ := by
  cases answer <;> cases hw : wrongExtension e <;>
    cases hn : notLoaded (p.imread e.path) <;>
    simp [loopBody, processed, opened, hret, hw, hn] at h ⊢

theorem loopBody_ok {C E D : Type} (p : Pipeline C E D) (nimgs : Int) (e : DirEntry)
    (st : ScanState C D) (c2 : C) (m : Mat E) (back : List D)
    (h : processed p e = true)
    (hx : (p.extract st.ctx (p.imread e.path)).2 = .ok (c2, m))
    (hc : p.changeStructure m [] = some back) :
    loopBody p nimgs e st = .normal
      ⟨st.it + 1, toInt32 (st.i + 1), c2, st.features ++ [back],
        st.trace ++ [Event.progress st.i nimgs, Event.filename e.path] ++
          (p.extract st.ctx (p.imread e.path)).1⟩ := by
  obtain ⟨hd, hw, hn⟩ := processed_returns p e h
  generalize hq : p.extract st.ctx (p.imread e.path) = q at hx
  obtain ⟨evs, r⟩ := q
  simp only at hx
  subst hx
  simp [loopBody, hd, hw, hn, hq, hc]

theorem loopBody_normal_cases {C E D : Type} (p : Pipeline C E D) (nimgs : Int)
    (e : DirEntry) (st st2 : ScanState C D) (h : loopBody p nimgs e st = .normal st2) :
    (processed p e = false ∧ ∃ answer, e.isDirectory = .returns answer) ∨
    (processed p e = true ∧ ∃ c2 m back,
      (p.extract st.ctx (p.imread e.path)).2 = .ok (c2, m) ∧
      p.changeStructure m [] = some back) := by
  cases hd : e.isDirectory with
  | throws what => rw [loopBody_throws p nimgs e st what hd] at h; cases h
  | returns answer =>
    by_cases hp : processed p e = true
    · right
      refine ⟨hp, ?_⟩
      obtain ⟨hd2, hw, hn⟩ := processed_returns p e hp
      unfold loopBody at h
      simp only [hd2, hw, hn, Bool.false_eq_true, if_false] at h
      split at h
      · cases h
      · rename_i evs ctx descriptors hex
        split at h
        · cases h
        · rename_i back hback
          exact ⟨ctx, descriptors, back, by rw [hex], hback⟩
    · left
      exact ⟨by simpa using hp, answer, rfl⟩

theorem loopBody_it {C E D : Type} (p : Pipeline C E D) (nimgs : Int) (e : DirEntry)
    (st st2 : ScanState C D) (h : loopBody p nimgs e st = .normal st2) :
    st2.it = st.it + 1 := by
  rcases loopBody_normal_cases p nimgs e st st2 h with ⟨hp, answer, hd⟩ | ⟨hp, c2, m, back, hx, hc⟩
  · rw [loopBody_skip p nimgs e st answer hd hp] at h
    injection h with h; subst h; rfl
  · rw [loopBody_ok p nimgs e st c2 m back hp hx hc] at h
    injection h with h; subst h; rfl

theorem drop_eq_cons {α : Type} (v : List α) (n : Nat) (e : α) (es : List α)
    (h : v.drop n = e :: es) : n < v.length ∧ v[n]? = some e ∧ v.drop (n + 1) = es := by
  have hlt : n < v.length := by
    by_contra hc
    have : v.drop n = [] := List.drop_eq_nil_iff.mpr (by omega)
    rw [this] at h
    cases h
  refine ⟨hlt, ?_, ?_⟩
  · have h1 : (v.drop n)[0]? = some e := by rw [h]; simp
    simpa using h1
  · have h1 : (v.drop n).drop 1 = es := by rw [h]; rfl
    rw [List.drop_drop] at h1
    rw [← h1, Nat.add_comm]

theorem scanLoop_eq_runBodies {C E D : Type} (p : Pipeline C E D) (nimgs : Int)
    (v : List DirEntry) (rest : List DirEntry) :
    ∀ (st : ScanState C D) (fuel : Nat), v.drop st.it = rest → st.it ≤ v.length →
      rest.length ≤ fuel → scanLoop p nimgs v fuel st = some (runBodies p nimgs rest st) := by
  induction rest with
  | nil =>
    intro st fuel hdrop hle _
    have hlen : st.it = v.length := by
      have := List.drop_eq_nil_iff.mp hdrop
      omega
    unfold scanLoop
    simp [hlen, runBodies]
  | cons e es ih =>
    intro st fuel hdrop hle hfuel
    obtain ⟨hlt, hget, hdrop2⟩ := drop_eq_cons v st.it e es hdrop
    obtain ⟨f, rfl⟩ : ∃ f, fuel = f + 1 := ⟨fuel - 1, by simp at hfuel; omega⟩
    unfold scanLoop
    simp only [Nat.ne_of_lt hlt, if_false, hget, runBodies]
    cases hb : loopBody p nimgs e st with
    | normal st2 =>
      have hit := loopBody_it p nimgs e st st2 hb
      simp only
      exact ih st2 f (by rw [hit]; exact hdrop2) (by omega) (by simp at hfuel; omega)
    | raised st2 what => rfl

theorem scanLoop_none {C E D : Type} (p : Pipeline C E D) (nimgs : Int)
    (v : List DirEntry) (rest : List DirEntry) :
    ∀ (st : ScanState C D) (fuel : Nat), v.drop st.it = rest →
      fuel < rest.length → (∃ st2, runBodies p nimgs rest st = .normal st2) →
      scanLoop p nimgs v fuel st = none := by
  induction rest with
  | nil => intro st fuel _ h; simp at h
  | cons e es ih =>
    intro st fuel hdrop hfuel hnorm
    obtain ⟨hlt, hget, hdrop2⟩ := drop_eq_cons v st.it e es hdrop
    unfold scanLoop
    simp only [Nat.ne_of_lt hlt, if_false]
    cases fuel with
    | zero => rfl
    | succ f =>
      simp only [hget]
      obtain ⟨st3, h3⟩ := hnorm
      simp only [runBodies] at h3
      cases hb : loopBody p nimgs e st with
      | normal st2 =>
        rw [hb] at h3
        have hit := loopBody_it p nimgs e st st2 hb
        simp only
        exact ih st2 f (by rw [hit]; exact hdrop2) (by simp at hfuel; omega) ⟨st3, h3⟩
      | raised st2 what => rw [hb] at h3; cases h3

theorem scanLoop_normal_runBodies {C E D : Type} (p : Pipeline C E D) (nimgs : Int)
    (v : List DirEntry) (rest : List DirEntry) :
    ∀ (st st2 : ScanState C D) (fuel : Nat), v.drop st.it = rest →
      scanLoop p nimgs v fuel st = some (.normal st2) →
      runBodies p nimgs rest st = .normal st2 := by
  induction rest with
  | nil =>
    intro st st2 fuel hdrop h
    have hge : v.length ≤ st.it := List.drop_eq_nil_iff.mp hdrop
    unfold scanLoop at h
    by_cases hlen : st.it = v.length
    · simp only [hlen, if_true, Option.some.injEq, Flow.normal.injEq] at h
      rw [← h]; rfl
    · simp only [hlen, if_false] at h
      cases fuel with
      | zero => cases h
      | succ f =>
        simp only [List.getElem?_eq_none hge] at h
        cases h
  | cons e es ih =>
    intro st st2 fuel hdrop h
    obtain ⟨hlt, hget, hdrop2⟩ := drop_eq_cons v st.it e es hdrop
    unfold scanLoop at h
    simp only [Nat.ne_of_lt hlt, if_false] at h
    cases fuel with
    | zero => cases h
    | succ f =>
      simp only [hget] at h
      simp only [runBodies]
      cases hb : loopBody p nimgs e st with
      | normal s =>
        rw [hb] at h
        have hit := loopBody_it p nimgs e st s hb
        exact ih s st2 f (by rw [hit]; exact hdrop2) h
      | raised s what =>
        rw [hb] at h
        simp at h

theorem runBodies_cons_normal {C E D : Type} (p : Pipeline C E D) (nimgs : Int)
    (e : DirEntry) (es : List DirEntry) (st st2 : ScanState C D)
    (h : runBodies p nimgs (e :: es) st = .normal st2) :
    ∃ s, loopBody p nimgs e st = .normal s ∧ runBodies p nimgs es s = .normal st2 := by
  simp only [runBodies] at h
  cases hb : loopBody p nimgs e st with
  | raised s w => rw [hb] at h; cases h
  | normal s => rw [hb] at h; exact ⟨s, rfl, h⟩

theorem toInt32_of_range (n : Int) (h1 : -2147483648 ≤ n) (h2 : n < 2147483648) :
    toInt32 n = n := by
  unfold toInt32; omega

theorem quiet_progress (evs : List Event) (h : ∀ ev, ev ∈ evs → ev.render = none) :
    evs.filterMap Event.progress? = [] := by
  induction evs with
  | nil => rfl
  | cons ev rest ih =>
    have h1 := h ev (List.mem_cons_self _ _)
    have h2 := ih (fun x hx => h x (List.mem_cons_of_mem _ hx))
    cases ev <;> simp [Event.render] at h1 <;> simp [List.filterMap_cons, Event.progress?, h2]

theorem quiet_filenames (evs : List Event) (h : ∀ ev, ev ∈ evs → ev.render = none) :
    evs.filterMap Event.filename? = [] := by
  induction evs with
  | nil => rfl
  | cons ev rest ih =>
    have h1 := h ev (List.mem_cons_self _ _)
    have h2 := ih (fun x hx => h x (List.mem_cons_of_mem _ hx))
    cases ev <;> simp [Event.render] at h1 <;> simp [List.filterMap_cons, Event.filename?, h2]

theorem loopBody_trace {C E D : Type} (p : Pipeline C E D) (nimgs : Int)
    (e : DirEntry) (st st2 : ScanState C D) (h : loopBody p nimgs e st = .normal st2) :
    st2.i = toInt32 (st.i + 1) ∧
    st2.trace = st.trace ++ Event.progress st.i nimgs ::
      ((if opened e then [Event.filename e.path] else []) ++
        (if processed p e then (p.extract st.ctx (p.imread e.path)).1 else [])) := by
  rcases loopBody_normal_cases p nimgs e st st2 h with ⟨hp, answer, hd⟩ | ⟨hp, c2, m, back, hx, hc⟩
  · rw [loopBody_skip p nimgs e st answer hd hp] at h
    injection h with h; subst h
    simp [hp]
  · rw [loopBody_ok p nimgs e st c2 m back hp hx hc] at h
    injection h with h; subst h
    have ho : opened e = true := by
      simp only [processed, Bool.and_eq_true] at hp
      exact hp.1
    simp [hp, ho]

theorem runBodies_progress {C E D : Type} (p : Pipeline C E D) (hQ : p.Quiet) (nimgs : Int)
    (entries : List DirEntry) :
    ∀ (st st2 : ScanState C D), runBodies p nimgs entries st = .normal st2 →
      0 ≤ st.i → st.i + entries.length < 2147483648 →
      st2.i = st.i + entries.length ∧
      st2.trace.filterMap Event.progress? =
        st.trace.filterMap Event.progress? ++
          (List.range entries.length).map (fun (k : Nat) => (st.i + (k : Int), nimgs)) := by
  induction entries with
  | nil =>
    intro st st2 h _ _
    simp only [runBodies, Flow.normal.injEq] at h
    subst h; simp
  | cons e es ih =>
    intro st st2 h h0 hN
    obtain ⟨s, hb, hrest⟩ := runBodies_cons_normal p nimgs e es st st2 h
    obtain ⟨hi, ht⟩ := loopBody_trace p nimgs e st s hb
    simp only [List.length_cons, Nat.cast_add, Nat.cast_one] at hN
    have hi2 : s.i = st.i + 1 := by
      rw [hi]; exact toInt32_of_range _ (by omega) (by omega)
    have hq := quiet_progress _ (hQ st.ctx (p.imread e.path))
    have hts : s.trace.filterMap Event.progress? =
        st.trace.filterMap Event.progress? ++ [(st.i, nimgs)] := by
      rw [ht]
      cases opened e <;> cases processed p e <;>
        simp [List.filterMap_append, List.filterMap_cons, Event.progress?, hq]
    obtain ⟨h1, h2⟩ := ih s st2 hrest (by omega) (by omega)
    refine ⟨by rw [h1, hi2]; simp; omega, ?_⟩
    rw [h2, hts, List.length_cons, List.range_succ_eq_map]
    simp only [List.append_assoc, List.singleton_append, List.map_cons, List.map_map,
      Nat.cast_zero, add_zero]
    congr 2
    apply List.map_congr_left
    intro k _
    simp only [Function.comp_apply, Nat.cast_succ, hi2]
    congr 1
    omega

theorem runBodies_filenames {C E D : Type} (p : Pipeline C E D) (hQ : p.Quiet) (nimgs : Int)
    (entries : List DirEntry) :
    ∀ (st st2 : ScanState C D), runBodies p nimgs entries st = .normal st2 →
      st2.trace.filterMap Event.filename? =
        st.trace.filterMap Event.filename? ++ (entries.filter opened).map (fun e => e.path) := by
  induction entries with
  | nil =>
    intro st st2 h
    simp only [runBodies, Flow.normal.injEq] at h
    subst h; simp
  | cons e es ih =>
    intro st st2 h
    obtain ⟨s, hb, hrest⟩ := runBodies_cons_normal p nimgs e es st st2 h
    obtain ⟨_, ht⟩ := loopBody_trace p nimgs e st s hb
    have hq := quiet_filenames _ (hQ st.ctx (p.imread e.path))
    rw [ih s st2 hrest, ht]
    cases ho : opened e <;> cases processed p e <;>
      simp [List.filterMap_append, List.filterMap_cons, Event.filename?, hq, List.filter_cons, ho]

theorem progress_isPrint (i nimgs : Int) : (Event.progress i nimgs).render.isNone = false := rfl

theorem filename_isPrint (name : String) : (Event.filename name).render.isNone = false := rfl

theorem runBodies_device {C E D : Type} (p : Pipeline C E D) (nimgs : Int)
    (evOf : Image → List Event)
    (hev : ∀ c img c2 m, (p.extract c img).2 = .ok (c2, m) →
      deviceEvents (p.extract c img).1 = evOf img)
    (entries : List DirEntry) :
    ∀ (st st2 : ScanState C D), runBodies p nimgs entries st = .normal st2 →
      deviceEvents st2.trace =
        deviceEvents st.trace ++ (corpusImages p entries).flatMap evOf := by
  induction entries with
  | nil =>
    intro st st2 h
    simp only [runBodies, Flow.normal.injEq] at h
    subst h; simp [corpusImages]
  | cons e es ih =>
    intro st st2 h
    obtain ⟨s, hb, hrest⟩ := runBodies_cons_normal p nimgs e es st st2 h
    obtain ⟨_, ht⟩ := loopBody_trace p nimgs e st s hb
    rw [ih s st2 hrest, ht]
    rcases loopBody_normal_cases p nimgs e st s hb with ⟨hp, _⟩ | ⟨hp, c2, m, back, hx, hc⟩
    · have hci : corpusImages p (e :: es) = corpusImages p es := by
        simp [corpusImages, List.filter_cons, hp]
      rw [hci]
      cases opened e <;>
        simp [hp, deviceEvents, List.filter_append, List.filter_cons, progress_isPrint,
          filename_isPrint]
    · have hci : corpusImages p (e :: es) = p.imread e.path :: corpusImages p es := by
        simp [corpusImages, List.filter_cons, hp]
      have ho : opened e = true := by
        simp only [processed, Bool.and_eq_true] at hp
        exact hp.1
      have hd := hev st.ctx (p.imread e.path) c2 m hx
      simp only [deviceEvents] at hd
      rw [hci]
      simp [hp, ho, deviceEvents, List.filter_append, List.filter_cons, progress_isPrint,
        filename_isPrint, hd, List.flatMap_cons]

theorem descriptorMatrices_cons {C E D : Type} (p : Pipeline C E D) (img : Image)
    (rest : List Image) (c c2 : C) (m : Mat E) (h : (p.extract c img).2 = .ok (c2, m)) :
    descriptorMatrices p (img :: rest) c = m :: descriptorMatrices p rest c2 := by
  generalize hq : p.extract c img = q at h
  obtain ⟨evs, r⟩ := q
  simp only at h
  subst h
  simp [descriptorMatrices, hq]

theorem runBodies_features {C E D : Type} (p : Pipeline C E D) (nimgs : Int)
    (hcs : ∀ m back, p.changeStructure m [] = some back → back.length = m.rows)
    (entries : List DirEntry) :
    ∀ (st st2 : ScanState C D), runBodies p nimgs entries st = .normal st2 →
      st2.it = st.it + entries.length ∧
      st2.features = st.features ++
        (descriptorMatrices p (corpusImages p entries) st.ctx).filterMap
          (fun m => p.changeStructure m []) ∧
      st2.features.map List.length = st.features.map List.length ++
        (descriptorMatrices p (corpusImages p entries) st.ctx).map Mat.rows ∧
      (descriptorMatrices p (corpusImages p entries) st.ctx).length
        = (corpusImages p entries).length ∧
      (descriptorMatrices p (corpusImages p entries) st.ctx).map
          (fun m => p.changeStructure m []) =
        ((descriptorMatrices p (corpusImages p entries) st.ctx).filterMap
          (fun m => p.changeStructure m [])).map some := by
  induction entries with
  | nil =>
    intro st st2 h
    simp only [runBodies, Flow.normal.injEq] at h
    subst h
    simp [corpusImages, descriptorMatrices]
  | cons e es ih =>
    intro st st2 h
    obtain ⟨s, hb, hrest⟩ := runBodies_cons_normal p nimgs e es st st2 h
    obtain ⟨h1, h2, h3, h4, h5⟩ := ih s st2 hrest
    rcases loopBody_normal_cases p nimgs e st s hb with
      ⟨hp, answer, hd⟩ | ⟨hp, c2, m, back, hx, hc⟩
    · rw [loopBody_skip p nimgs e st answer hd hp] at hb
      injection hb with hb; subst hb
      have hci : corpusImages p (e :: es) = corpusImages p es := by
        simp [corpusImages, List.filter_cons, hp]
      rw [hci]
      exact ⟨by rw [h1]; simp; omega, h2, h3, h4, h5⟩
    · rw [loopBody_ok p nimgs e st c2 m back hp hx hc] at hb
      injection hb with hb; subst hb
      have hci : corpusImages p (e :: es) = p.imread e.path :: corpusImages p es := by
        simp [corpusImages, List.filter_cons, hp]
      rw [hci, descriptorMatrices_cons p _ _ _ c2 m hx]
      refine ⟨by rw [h1]; simp; omega, ?_, ?_, ?_, ?_⟩
      · rw [h2]; simp [List.filterMap_cons, hc]
      · rw [h3]; simp [hcs m back hc]
      · simp at h4 ⊢; exact h4
      · simp only [List.map_cons, List.filterMap_cons, hc]
        rw [h5]

theorem runBodies_returns {C E D : Type} (p : Pipeline C E D) (hR : p.Reliable) (nimgs : Int)
    (entries : List DirEntry) (hdir : StatReturns entries) :
    ∀ (st : ScanState C D), ∃ st2, runBodies p nimgs entries st = .normal st2 := by
  induction entries with
  | nil => intro st; exact ⟨st, rfl⟩
  | cons e es ih =>
    intro st
    have hes : StatReturns es := fun x hx => hdir x (List.mem_cons_of_mem _ hx)
    obtain ⟨answer, hd⟩ := hdir e (List.mem_cons_self _ _)
    by_cases hp : processed p e = true
    · obtain ⟨c2, m, back, hx, hc, _⟩ := hR st.ctx (p.imread e.path)
      obtain ⟨st2, h2⟩ := ih hes
        ⟨st.it + 1, toInt32 (st.i + 1), c2, st.features ++ [back],
          st.trace ++ [Event.progress st.i nimgs, Event.filename e.path] ++
            (p.extract st.ctx (p.imread e.path)).1⟩
      exact ⟨st2, by simp only [runBodies, loopBody_ok p nimgs e st c2 m back hp hx hc]; exact h2⟩
    · have hp2 : processed p e = false := by simpa using hp
      obtain ⟨st2, h2⟩ := ih hes
        ⟨st.it + 1, toInt32 (st.i + 1), st.ctx, st.features,
          st.trace ++ Event.progress st.i nimgs ::
            (if opened e then [Event.filename e.path] else [])⟩
      exact ⟨st2, by simp only [runBodies, loopBody_skip p nimgs e st answer hd hp2]; exact h2⟩

theorem corpusImages_length_le {C E D : Type} (p : Pipeline C E D) (v : List DirEntry) :
    (corpusImages p v).length ≤ v.length := by
  simp only [corpusImages, List.length_map]
  exact List.length_filter_le _ _

theorem corpusImages_skip {C E D : Type} (p : Pipeline C E D) (front back : List DirEntry)
    (e : DirEntry) (h : processed p e = false) :
    corpusImages p (front ++ e :: back) = corpusImages p (front ++ back) := by
  simp [corpusImages, List.filter_append, List.filter_cons, h]

theorem filterMap_some_map {α β : Type} (f : α → β) (l : List α) :
    l.filterMap (fun a => some (f a)) = l.map f := by
  induction l with
  | nil => rfl
  | cons a rest ih => simp [List.filterMap_cons, ih]

theorem scanDirectory_ok {C E D : Type} (p : Pipeline C E D) (title : String)
    (v : List DirEntry) (ctx : C) (trace : List Event) (fuel : Nat)
    (hN : v.length < 2147483647) (hf : v.length ≤ fuel) :
    scanDirectory p title (.ok v) ctx trace fuel =
      some (runBodies p v.length v ⟨0, 1, ctx, [], trace ++ [Event.header title]⟩) := by
  have h32 : toInt32 (v.length : Int) = v.length := toInt32_of_range _ (by omega) (by omega)
  have hneg : ¬ ((v.length : Int) < 0) := by omega
  simp only [scanDirectory, h32, hneg, if_false]
  exact scanLoop_eq_runBodies p _ v v _ fuel rfl (Nat.zero_le _) hf

theorem scanDirectory_short {C E D : Type} (p : Pipeline C E D) (title : String)
    (v : List DirEntry) (ctx : C) (trace : List Event) (fuel : Nat)
    (hN : v.length < 2147483647) (hf : fuel < v.length)
    (hnorm : ∃ st2, runBodies p v.length v ⟨0, 1, ctx, [], trace ++ [Event.header title]⟩
      = .normal st2) :
    scanDirectory p title (.ok v) ctx trace fuel = none := by
  have h32 : toInt32 (v.length : Int) = v.length := toInt32_of_range _ (by omega) (by omega)
  have hneg : ¬ ((v.length : Int) < 0) := by omega
  simp only [scanDirectory, h32, hneg, if_false]
  exact scanLoop_none p _ v v _ fuel rfl hf hnorm

theorem scanDirectory_normal {C E D : Type} (p : Pipeline C E D) (title : String)
    (v : List DirEntry) (ctx : C) (trace : List Event) (fuel : Nat) (st2 : ScanState C D)
    (h : scanDirectory p title (.ok v) ctx trace fuel = some (.normal st2)) :
    runBodies p (toInt32 v.length) v ⟨0, 1, ctx, [], trace ++ [Event.header title]⟩
      = .normal st2 := by
  simp only [scanDirectory] at h
  split at h
  · simp at h
  · exact scanLoop_normal_runBodies p _ v v _ st2 fuel rfl h

theorem orb_pipeline_reliable (w : Orb.World) : (Orb.pipeline w).Reliable := by
  intro c img
  exact ⟨(), w.detectAndCompute img, Orb.changeStructure (w.detectAndCompute img) [], rfl, rfl,
    by simp [Orb.changeStructure, orb_loop_length, resize_length]⟩

theorem orb_pipeline_quiet (w : Orb.World) : (Orb.pipeline w).Quiet := by
  intro c img ev h
  simp [Orb.pipeline] at h

theorem orb_changeStructure_length (w : Orb.World) (m : Mat Byte) (back : List (Mat Byte))
    (h : (Orb.pipeline w).changeStructure m [] = some back) : back.length = m.rows := by
  simp only [Orb.pipeline, Option.some.injEq] at h
  subst h
  simp [Orb.changeStructure, orb_loop_length, resize_length]

theorem orb_descriptorMatrices_eq (w : Orb.World) (imgs : List Image) :
    descriptorMatrices (Orb.pipeline w) imgs () = imgs.map w.detectAndCompute := by
  induction imgs with
  | nil => rfl
  | cons img rest ih => simp [descriptorMatrices, Orb.pipeline] at ih ⊢; exact ih

theorem sift_loop_length (plain : Mat F32) (k : Nat) :
    ∀ (i : Nat) (out res : List (List F32)),
      Sift.changeStructureLoop plain k i out = some res → res.length = out.length := by
  induction k with
  | zero =>
    intro i out res h
    simp only [Sift.changeStructureLoop, Option.some.injEq] at h
    subst h; rfl
  | succ k ih =>
    intro i out res h
    simp only [Sift.changeStructureLoop] at h
    split at h
    · cases h
    · split at h
      · cases h
      · have := ih _ _ _ h
        simpa using this

theorem sift_changeStructure_length (w : Sift.World) (m : Mat F32) (back : List (List F32))
    (h : (Sift.pipeline w).changeStructure m [] = some back) : back.length = m.rows := by
  have h2 : Sift.changeStructureLoop m m.rows 0 (resize [] m.rows []) = some back := h
  rw [sift_loop_length m m.rows 0 _ back h2, resize_length]

theorem sift_extract_events (w : Sift.World) (s s2 : Sift.SiftData) (img : Image)
    (h : w.extractSift s img = .ok s2) :
    (Sift.extract w s img).1 = Sift.imageEvents img := by
  simp only [Sift.extract, Sift.computeFeatures, h]
  cases Sift.copyCUDAFeatures s2 <;> rfl

theorem sift_extract_ok (w : Sift.World) (s c2 : Sift.SiftData) (img : Image) (m : Mat F32)
    (h : (Sift.extract w s img).2 = .ok (c2, m)) :
    w.extractSift s img = .ok c2 ∧ Sift.copyCUDAFeatures c2 = some m := by
  simp only [Sift.extract, Sift.computeFeatures] at h
  cases hx : w.extractSift s img with
  | error what => rw [hx] at h; simp at h
  | ok s2 =>
    rw [hx] at h
    simp only at h
    cases hc : Sift.copyCUDAFeatures s2 with
    | none => rw [hc] at h; simp at h
    | some d =>
      rw [hc] at h
      simp only [Except.ok.injEq, Prod.mk.injEq] at h
      obtain ⟨h2, h3⟩ := h
      subst h2; subst h3
      exact ⟨rfl, hc⟩

theorem sift_device_events (w : Sift.World) (c : Sift.SiftData) (img : Image)
    (c2 : Sift.SiftData) (m : Mat F32)
    (h : ((Sift.pipeline w).extract c img).2 = .ok (c2, m)) :
    deviceEvents ((Sift.pipeline w).extract c img).1 = Sift.imageEvents img := by
  have h2 : (Sift.extract w c img).2 = .ok (c2, m) := h
  obtain ⟨hx, _⟩ := sift_extract_ok w c c2 img m h2
  have he : ((Sift.pipeline w).extract c img).1 = (Sift.extract w c img).1 := rfl
  rw [he, sift_extract_events w c c2 img hx]
  rfl

theorem sift_pipeline_reliable (w : Sift.World) (hx : w.Returns) :
    (Sift.pipeline w).Reliable := by
  intro s img
  obtain ⟨s2, h1, h2⟩ := hx s img
  obtain ⟨d, hd, hc⟩ := sift_copy_changeStructure_eq s2 h2
  have shape := sift_copy_shape s2 d hd
  refine ⟨s2, d, _, ?_, hc, ?_⟩
  · simp [Sift.pipeline, Sift.extract, Sift.computeFeatures, h1, hd]
  · simp [shape.1]; omega

theorem sift_pipeline_quiet (w : Sift.World) : (Sift.pipeline w).Quiet := by
  intro s img ev h
  have he : ((Sift.pipeline w).extract s img).1 = (Sift.extract w s img).1 := rfl
  rw [he] at h
  cases hx : w.extractSift s img with
  | error what =>
    simp only [Sift.extract, Sift.computeFeatures, hx] at h
    simp at h
    rcases h with h | h | h | h <;> subst h <;> rfl
  | ok s2 =>
    rw [sift_extract_events w s s2 img hx] at h
    simp [Sift.imageEvents] at h
    rcases h with h | h | h | h | h <;> subst h <;> rfl

theorem orb_loadFeatures_eq (w : Orb.World) (dir : String) (v : List DirEntry) (fuel : Nat)
    (hl : w.listing dir = .ok v) (hN : v.length < 2147483647) (hf : v.length ≤ fuel)
    (st2 : ScanState Unit (Mat Byte))
    (hrun : runBodies (Orb.pipeline w) v.length v
      ⟨0, 1, (), [], [Event.header "Extracting ORB features..."]⟩ = .normal st2) :
    Orb.loadFeatures w dir fuel = some (.normal ⟨st2.features, st2.trace⟩) := by
  have h := scanDirectory_ok (Orb.pipeline w) "Extracting ORB features..." v () [] fuel hN hf
  simp only [List.nil_append] at h
  simp only [Orb.loadFeatures, hl, h, hrun]

theorem sift_loadFeatures_eq (w : Sift.World) (dir : String) (v : List DirEntry) (fuel : Nat)
    (hl : w.listing dir = .ok v) (hN : v.length < 2147483647) (hf : v.length ≤ fuel)
    (st2 : ScanState Sift.SiftData (List F32))
    (hrun : runBodies (Sift.pipeline w) v.length v
      ⟨0, 1, w.initSiftData 2000, [],
        [Event.initSiftData 2000, Event.header "Extracting SIFT features..."]⟩ = .normal st2) :
    Sift.loadFeatures w dir fuel =
      some (.normal ⟨st2.features, st2.trace ++ [Event.freeSiftData]⟩) := by
  have h := scanDirectory_ok (Sift.pipeline w) "Extracting SIFT features..." v
    (w.initSiftData 2000) [Event.initSiftData 2000] fuel hN hf
  simp only [List.singleton_append] at h
  simp only [Sift.loadFeatures, hl, h, hrun]

theorem orb_loadFeatures_normal (w : Orb.World) (dir : String) (v : List DirEntry)
    (fuel : Nat) (r : Loaded (Mat Byte)) (hl : w.listing dir = .ok v)
    (h : Orb.loadFeatures w dir fuel = some (.normal r)) :
    ∃ st2, runBodies (Orb.pipeline w) (toInt32 v.length) v
        ⟨0, 1, (), [], [Event.header "Extracting ORB features..."]⟩ = .normal st2 ∧
      r = ⟨st2.features, st2.trace⟩ := by
  simp only [Orb.loadFeatures, hl] at h
  cases hs : scanDirectory (Orb.pipeline w) "Extracting ORB features..." (.ok v) () [] fuel with
  | none => rw [hs] at h; cases h
  | some f =>
    rw [hs] at h
    cases f with
    | raised s what => simp at h
    | normal s =>
      simp only [Option.some.injEq, Flow.normal.injEq] at h
      have := scanDirectory_normal _ _ v () [] fuel s hs
      exact ⟨s, by simpa using this, h.symm⟩

theorem sift_loadFeatures_normal (w : Sift.World) (dir : String) (v : List DirEntry)
    (fuel : Nat) (r : Loaded (List F32)) (hl : w.listing dir = .ok v)
    (h : Sift.loadFeatures w dir fuel = some (.normal r)) :
    ∃ st2, runBodies (Sift.pipeline w) (toInt32 v.length) v
        ⟨0, 1, w.initSiftData 2000, [],
          [Event.initSiftData 2000, Event.header "Extracting SIFT features..."]⟩
        = .normal st2 ∧
      r = ⟨st2.features, st2.trace ++ [Event.freeSiftData]⟩ := by
  simp only [Sift.loadFeatures, hl] at h
  cases hs : scanDirectory (Sift.pipeline w) "Extracting SIFT features..." (.ok v)
      (w.initSiftData 2000) [Event.initSiftData 2000] fuel with
  | none => rw [hs] at h; cases h
  | some f =>
    rw [hs] at h
    cases f with
    | raised s what => simp at h
    | normal s =>
      simp only [Option.some.injEq, Flow.normal.injEq] at h
      have := scanDirectory_normal _ _ v _ _ fuel s hs
      exact ⟨s, by simpa using this, h.symm⟩

theorem orb_loadFeatures_returns (w : Orb.World) (dir : String) (v : List DirEntry)
    (fuel : Nat) (hl : w.listing dir = .ok v) (hN : v.length < 2147483647)
    (hdir : StatReturns v) (hf : v.length ≤ fuel) :
    ∃ r, Orb.loadFeatures w dir fuel = some (.normal r) := by
  obtain ⟨st2, h⟩ := runBodies_returns (Orb.pipeline w) (orb_pipeline_reliable w) v.length v
    hdir ⟨0, 1, (), [], [Event.header "Extracting ORB features..."]⟩
  exact ⟨_, orb_loadFeatures_eq w dir v fuel hl hN hf st2 h⟩

theorem sift_loadFeatures_returns (w : Sift.World) (dir : String) (v : List DirEntry)
    (fuel : Nat) (hx : w.Returns) (hl : w.listing dir = .ok v) (hN : v.length < 2147483647)
    (hdir : StatReturns v) (hf : v.length ≤ fuel) :
    ∃ r, Sift.loadFeatures w dir fuel = some (.normal r) := by
  obtain ⟨st2, h⟩ := runBodies_returns (Sift.pipeline w) (sift_pipeline_reliable w hx)
    v.length v hdir ⟨0, 1, w.initSiftData 2000, [],
      [Event.initSiftData 2000, Event.header "Extracting SIFT features..."]⟩
  exact ⟨_, sift_loadFeatures_eq w dir v fuel hl hN hf st2 h⟩

theorem example_sift_returns (v : List DirEntry) : (Example.siftWorld v).Returns := by
  intro s img
  exact ⟨_, rfl, by simp⟩

theorem statReturns_of_all (v : List DirEntry)
    (h : v.all (fun e => decide (e.isDirectory = .returns true) ||
      decide (e.isDirectory = .returns false)) = true) : StatReturns v := by
  intro e he
  have := List.all_eq_true.mp h e he
  simp only [Bool.or_eq_true, decide_eq_true_eq] at this
  rcases this with h1 | h1
  · exact ⟨true, h1⟩
  · exact ⟨false, h1⟩

/-! ## Claims on `changeStructure` and `copyCUDAFeatures` -/

/-- Claim C1: for every binary descriptor matrix `plain` and every previous
content of `out`, the ORB `changeStructure` leaves exactly `plain.rows`
entries in `out`; entry `i` is `plain.row(i)`, whose bytes are those of row
`i` of `plain` in the same order; and the result does not depend on what
`out` held before. -/
theorem orb_changeStructure_rows (plain : Mat Byte) (out : List (Mat Byte)) :
    (Orb.changeStructure plain out).length = plain.rows ∧
    (∀ i, i < plain.rows →
      (Orb.changeStructure plain out)[i]? = some (plain.row i) ∧
      ∀ j, j < plain.cols → (plain.row i).data[j]? = plain.at? i j) ∧
    Orb.changeStructure plain out = Orb.changeStructure plain [] := by
  refine ⟨(orb_rows_aux plain out).1,
    (orb_rows_aux plain out).2, ?_⟩
  apply List.ext_getElem?
  intro i
  simp only [Orb.changeStructure, orb_loop_getElem?, resize_length]
  by_cases h : i < plain.rows
  · simp [h]
  · have h1 : ¬ (0 ≤ i ∧ i < 0 + plain.rows ∧ i < plain.rows) := by omega
    simp only [h1, if_false]
    rw [List.getElem?_eq_none (by rw [resize_length]; omega),
      List.getElem?_eq_none (by rw [resize_length]; omega)]

/-- Witness of C1: the 2 x 3 matrix, written over an `out` that held one
entry; row 1 and its byte 2. -/
theorem orb_changeStructure_rows_witness :
    (1 < Example.plainBytes.rows ∧ 2 < Example.plainBytes.cols) ∧
    (Orb.changeStructure Example.plainBytes [Example.plainBytes])[1]?
      = some (Example.plainBytes.row 1) ∧
    (Example.plainBytes.row 1).data[2]? = Example.plainBytes.at? 1 2 :=
  ⟨⟨by decide, by decide⟩,
    ((orb_changeStructure_rows Example.plainBytes [Example.plainBytes]).2.1 1 (by decide)).1,
    ((orb_changeStructure_rows Example.plainBytes [Example.plainBytes]).2.1 1 (by decide)).2 2
      (by decide)⟩

/-- Claim C2: for every float matrix `plain` of 128 columns (its buffer
holding `rows * 128` floats) and every previous content of `out`, the SIFT
`changeStructure` returns, with exactly `plain.rows` vectors, each of length
128, component `j` of vector `i` being `plain[i][j]`, bit for bit. -/
theorem sift_changeStructure_rows (plain : Mat F32) (out : List (List F32))
    (hcols : plain.cols = 128) (hwf : plain.WellFormed) :
    ∃ res, Sift.changeStructure plain out = some res ∧ res.length = plain.rows ∧
      ∀ i, i < plain.rows → ∃ v, res[i]? = some v ∧ v.length = 128 ∧
        ∀ j, j < 128 → ∃ x, v[j]? = some x ∧ plain.at? i j = some x := by
  obtain ⟨res, h1, h2, h3⟩ := sift_rows_aux plain out hcols hwf
  refine ⟨res, h1, h2, fun i hi => ?_⟩
  obtain ⟨v, hv1, hv2, hv3⟩ := h3 i hi
  refine ⟨v, hv1, hv2, fun j hj => ?_⟩
  have hjv : j < v.length := by omega
  exact ⟨v[j], List.getElem?_eq_getElem hjv, by rw [← hv3 j hj, List.getElem?_eq_getElem hjv]⟩

set_option maxRecDepth 100000 in
/-- Witness of C2: the 2 x 128 matrix of sevens and nines, written over an
`out` that held one short vector. -/
theorem sift_changeStructure_rows_witness :
    Example.plainFloats.cols = 128 ∧ Example.plainFloats.WellFormed ∧
    ∃ res, Sift.changeStructure Example.plainFloats [[1, 2, 3]] = some res ∧
      res.length = Example.plainFloats.rows ∧
      ∀ i, i < Example.plainFloats.rows → ∃ v, res[i]? = some v ∧ v.length = 128 ∧
        ∀ j, j < 128 → ∃ x, v[j]? = some x ∧ Example.plainFloats.at? i j = some x :=
  ⟨by decide, by decide,
    sift_changeStructure_rows Example.plainFloats [[1, 2, 3]] (by decide) (by decide)⟩

/-- Claim C9: in the SIFT pipeline the matrix handed to `changeStructure` is
the one `copyCUDAFeatures` built from the `SiftData` of the image: it has
`numPts` rows and 128 columns, its buffer holds `numPts * 128` floats, and
`changeStructure` stays within its buffers on it.  When the host buffer holds
at least `numPts` points, both copies stay within their buffers and the
result is exactly `numPts` vectors of length 128, vector `i` being
`sift[i].data`. -/
theorem sift_descriptors_from_points :
    (∀ (w : Sift.World) (sdata : Sift.SiftData) (img : Image) (evs : List Event)
        (sdata2 : Sift.SiftData) (descriptors : Mat F32),
      (Sift.pipeline w).extract sdata img = (evs, .ok (sdata2, descriptors)) →
      Sift.copyCUDAFeatures sdata2 = some descriptors ∧
      descriptors.rows = sdata2.numPts ∧ descriptors.cols = 128 ∧ descriptors.WellFormed ∧
      ∃ res, (Sift.pipeline w).changeStructure descriptors [] = some res ∧
        res.length = sdata2.numPts) ∧
    (∀ (data : Sift.SiftData), data.numPts ≤ data.h_data.length →
      ∃ descriptors res, Sift.copyCUDAFeatures data = some descriptors ∧
        Sift.changeStructure descriptors [] = some res ∧
        res = (data.h_data.take data.numPts).map (fun pt => pt.data) ∧
        res.length = data.numPts ∧
        ∀ i, i < data.numPts → ∃ pt, data.h_data[i]? = some pt ∧
          res[i]? = some pt.data ∧ pt.data.length = 128) := by
  constructor
  · intro w sdata img evs sdata2 descriptors h
    have hcopy : Sift.copyCUDAFeatures sdata2 = some descriptors := by
      simp only [Sift.pipeline, Sift.extract, Sift.computeFeatures] at h
      cases hx : w.extractSift sdata img with
      | error what => rw [hx] at h; simp at h
      | ok s =>
        rw [hx] at h
        simp only at h
        cases hc : Sift.copyCUDAFeatures s with
        | none => rw [hc] at h; simp at h
        | some d =>
          rw [hc] at h
          simp only [Prod.mk.injEq, Except.ok.injEq] at h
          obtain ⟨_, h2, h3⟩ := h
          subst h2; subst h3; exact hc
    obtain ⟨hr, hc, hwf⟩ := sift_copy_shape sdata2 descriptors hcopy
    obtain ⟨res, e1, e2, _⟩ := sift_rows_aux descriptors [] hc hwf
    exact ⟨hcopy, hr, hc, hwf, res, e1, by rw [e2, hr]⟩
  · intro data h
    obtain ⟨d, hd, hc⟩ := sift_copy_changeStructure_eq data h
    refine ⟨d, _, hd, hc, rfl, by simp; omega, fun i hi => ?_⟩
    have hil : i < data.h_data.length := by omega
    exact ⟨data.h_data[i], List.getElem?_eq_getElem hil,
      by simp [List.getElem?_map, List.getElem?_take, hi, List.getElem?_eq_getElem hil],
      (data.h_data[i]).data_size⟩

set_option maxRecDepth 100000 in
/-- Witness of C9: the image of 6 rows, on which the extractor of the
examples finds five points; and an extraction that found two points in a
buffer of three, whose descriptors are the data of the first two points. -/
theorem sift_descriptors_from_points_witness :
    ((Sift.pipeline (Example.siftWorld [])).extract ⟨0, 2000, []⟩ (Example.imread "d/1.png") =
        ([Event.cudaImageAllocate 1 6, Event.cudaImageDownload,
          Event.allocSiftTempMemory 2 12 5, Event.extractSift, Event.freeSiftTempMemory],
         .ok (⟨5, 2000, List.replicate 5 (Example.point 1)⟩,
              ⟨5, 128, List.replicate 640 1⟩)) ∧
      ∃ res, (Sift.pipeline (Example.siftWorld [])).changeStructure
        ⟨5, 128, List.replicate 640 1⟩ [] = some res ∧ res.length = 5) ∧
    Example.twoPoints.numPts ≤ Example.twoPoints.h_data.length ∧
    ∃ descriptors res, Sift.copyCUDAFeatures Example.twoPoints = some descriptors ∧
      Sift.changeStructure descriptors [] = some res ∧
      res = (Example.twoPoints.h_data.take Example.twoPoints.numPts).map (fun pt => pt.data) ∧
      res.length = Example.twoPoints.numPts ∧
      ∀ i, i < Example.twoPoints.numPts → ∃ pt, Example.twoPoints.h_data[i]? = some pt ∧
        res[i]? = some pt.data ∧ pt.data.length = 128 :=
  ⟨⟨by rfl, (sift_descriptors_from_points.1 (Example.siftWorld []) ⟨0, 2000, []⟩
      (Example.imread "d/1.png") _ _ _ (by rfl)).2.2.2.2⟩,
    by decide, sift_descriptors_from_points.2 Example.twoPoints (by decide)⟩

/-! ## Claims on `loadFeatures` -/

/-- Claim C3: `loadFeatures` keeps the grouping by image.  Whenever a run
returns, `features` has exactly one entry per decoded image of the listing,
in listing order; entry `i` is `changeStructure` of the descriptor matrix of
image `i` and so holds as many descriptors as that matrix has rows.  An image
with no keypoints gives one empty entry; row counts 5, 0, 8 give a set of
length 3 with entry sizes 5, 0, 8.  A run does return, given as many
iterations as the listing has entries, when the listing has fewer than
2^31 - 1 entries and every `fs::is_directory` call returns (for SIFT, when
also every `ExtractSift` call returns, with no more points than its host
buffer holds). -/
theorem loadFeatures_grouping :
    (∀ (w : Orb.World) (dir : String) (v : List DirEntry) (fuel : Nat)
        (r : Loaded (Mat Byte)),
      w.listing dir = .ok v → Orb.loadFeatures w dir fuel = some (.normal r) →
        r.features.length = (corpusImages (Orb.pipeline w) v).length ∧
        r.features.map List.length =
          (corpusImages (Orb.pipeline w) v).map (fun img => (w.detectAndCompute img).rows) ∧
        r.features = (corpusImages (Orb.pipeline w) v).map
          (fun img => Orb.changeStructure (w.detectAndCompute img) [])) ∧
    (∀ (w : Orb.World) (dir : String) (v : List DirEntry) (fuel : Nat),
      w.listing dir = .ok v → v.length < 2147483647 → StatReturns v → v.length ≤ fuel →
      ∃ r, Orb.loadFeatures w dir fuel = some (.normal r)) ∧
    (∀ (w : Sift.World) (dir : String) (v : List DirEntry) (fuel : Nat)
        (r : Loaded (List F32)),
      w.listing dir = .ok v → Sift.loadFeatures w dir fuel = some (.normal r) →
        r.features.length = (corpusImages (Sift.pipeline w) v).length ∧
        r.features.map List.length =
          (descriptorMatrices (Sift.pipeline w) (corpusImages (Sift.pipeline w) v)
            (w.initSiftData 2000)).map Mat.rows ∧
        r.features.map some =
          (descriptorMatrices (Sift.pipeline w) (corpusImages (Sift.pipeline w) v)
            (w.initSiftData 2000)).map (fun m => Sift.changeStructure m [])) ∧
    (∀ (w : Sift.World) (dir : String) (v : List DirEntry) (fuel : Nat),
      w.Returns → w.listing dir = .ok v → v.length < 2147483647 → StatReturns v →
      v.length ≤ fuel → ∃ r, Sift.loadFeatures w dir fuel = some (.normal r)) := by
  refine ⟨?_, ?_, ?_, ?_⟩
  · intro w dir v fuel r hl h
    obtain ⟨st2, hrun, hr⟩ := orb_loadFeatures_normal w dir v fuel r hl h
    obtain ⟨_, h2, h3, h4, _⟩ := runBodies_features (Orb.pipeline w) _
      (orb_changeStructure_length w) v _ st2 hrun
    subst hr
    simp only [List.map_nil, List.nil_append, orb_descriptorMatrices_eq, List.map_map,
      List.length_map] at h2 h3 h4
    refine ⟨?_, h3, ?_⟩
    · have := congrArg List.length h3
      simpa using this
    · rw [h2]
      simp only [Orb.pipeline, List.filterMap_map, Function.comp_def]
      exact filterMap_some_map _ _
  · intro w dir v fuel hl hN hdir hf
    exact orb_loadFeatures_returns w dir v fuel hl hN hdir hf
  · intro w dir v fuel r hl h
    obtain ⟨st2, hrun, hr⟩ := sift_loadFeatures_normal w dir v fuel r hl h
    obtain ⟨_, h2, h3, h4, h5⟩ := runBodies_features (Sift.pipeline w) _
      (sift_changeStructure_length w) v _ st2 hrun
    subst hr
    simp only [List.map_nil, List.nil_append] at h2 h3 h4
    refine ⟨?_, h3, ?_⟩
    · have := congrArg List.length h3
      simpa [h4] using this
    · rw [h2]
      exact h5.symm
  · intro w dir v fuel hx hl hN hdir hf
    exact sift_loadFeatures_returns w dir v fuel hx hl hN hdir hf

set_option maxRecDepth 100000 in
/-- Witness of C3: three images whose descriptor matrices have 5, 0 and 8
rows give `features` of length 3 with entry sizes 5, 0, 8, in both programs. -/
theorem loadFeatures_grouping_witness :
    (∃ r, Orb.loadFeatures (Example.orbWorld Example.threeImages) "d" 3 = some (.normal r) ∧
      r.features.length = 3 ∧ r.features.map List.length = [5, 0, 8]) ∧
    (∃ r, Sift.loadFeatures (Example.siftWorld Example.threeImages) "d" 3 = some (.normal r) ∧
      r.features.length = 3 ∧ r.features.map List.length = [5, 0, 8]) := by
  constructor
  · obtain ⟨r, h⟩ := loadFeatures_grouping.2.1 (Example.orbWorld Example.threeImages)
      "d" Example.threeImages 3 rfl (by decide) (statReturns_of_all _ (by decide)) (by decide)
    obtain ⟨h2, h3, _⟩ := loadFeatures_grouping.1 (Example.orbWorld Example.threeImages)
      "d" Example.threeImages 3 r rfl h
    exact ⟨r, h, h2.trans (by decide), h3.trans (by decide)⟩
  · obtain ⟨r, h⟩ := loadFeatures_grouping.2.2.2 (Example.siftWorld Example.threeImages)
      "d" Example.threeImages 3 (example_sift_returns _) rfl (by decide)
      (statReturns_of_all _ (by decide)) (by decide)
    obtain ⟨h2, h3, _⟩ := loadFeatures_grouping.2.2.1 (Example.siftWorld Example.threeImages)
      "d" Example.threeImages 3 r rfl h
    exact ⟨r, h, h2.trans (by decide), h3.trans (by decide)⟩

theorem orb_openedPaths (w : Orb.World) (dir : String) (v : List DirEntry) (fuel : Nat)
    (hl : w.listing dir = .ok v) (hN : v.length < 2147483647) (hdir : StatReturns v)
    (hf : v.length ≤ fuel) :
    openedPaths (Orb.loadFeatures w dir fuel) = (v.filter opened).map (fun e => e.path) := by
  obtain ⟨st2, h1⟩ := runBodies_returns (Orb.pipeline w) (orb_pipeline_reliable w)
    v.length v hdir ⟨0, 1, (), [], [Event.header "Extracting ORB features..."]⟩
  have h2 := runBodies_filenames _ (orb_pipeline_quiet w) _ _ _ _ h1
  rw [orb_loadFeatures_eq w dir v fuel hl hN hf st2 h1]
  simpa [openedPaths, traceOf, Flow.state, Event.filename?] using h2

theorem sift_openedPaths (w : Sift.World) (dir : String) (v : List DirEntry) (fuel : Nat)
    (hx : w.Returns) (hl : w.listing dir = .ok v) (hN : v.length < 2147483647)
    (hdir : StatReturns v) (hf : v.length ≤ fuel) :
    openedPaths (Sift.loadFeatures w dir fuel) = (v.filter opened).map (fun e => e.path) := by
  obtain ⟨st2, h1⟩ := runBodies_returns (Sift.pipeline w) (sift_pipeline_reliable w hx)
    v.length v hdir ⟨0, 1, w.initSiftData 2000, [],
      [Event.initSiftData 2000, Event.header "Extracting SIFT features..."]⟩
  have h2 := runBodies_filenames _ (sift_pipeline_quiet w) _ _ _ _ h1
  rw [sift_loadFeatures_eq w dir v fuel hl hN hf st2 h1]
  simpa [openedPaths, traceOf, Flow.state, Event.filename?, List.filterMap_append] using h2

set_option maxRecDepth 100000 in
/-- Claim C4, evaluated on the code: two enumerations of the same two image
files, one the other way round, make `loadFeatures` open the files in two
different orders, each the order of its enumeration, in both programs. -/
theorem loadFeatures_follows_enumeration :
    List.Perm [(⟨"d/1.png", ".png", .returns false⟩ : DirEntry),
        ⟨"d/2.png", ".png", .returns false⟩]
      [⟨"d/2.png", ".png", .returns false⟩, ⟨"d/1.png", ".png", .returns false⟩] ∧
    openedPaths (Orb.loadFeatures (Example.orbWorld
      [⟨"d/1.png", ".png", .returns false⟩, ⟨"d/2.png", ".png", .returns false⟩]) "d" 2)
      = ["d/1.png", "d/2.png"] ∧
    openedPaths (Orb.loadFeatures (Example.orbWorld
      [⟨"d/2.png", ".png", .returns false⟩, ⟨"d/1.png", ".png", .returns false⟩]) "d" 2)
      = ["d/2.png", "d/1.png"] ∧
    openedPaths (Sift.loadFeatures (Example.siftWorld
      [⟨"d/1.png", ".png", .returns false⟩, ⟨"d/2.png", ".png", .returns false⟩]) "d" 2)
      = ["d/1.png", "d/2.png"] ∧
    openedPaths (Sift.loadFeatures (Example.siftWorld
      [⟨"d/2.png", ".png", .returns false⟩, ⟨"d/1.png", ".png", .returns false⟩]) "d" 2)
      = ["d/2.png", "d/1.png"] := by
  refine ⟨List.Perm.swap _ _ _, ?_, ?_, ?_, ?_⟩
  · rw [orb_openedPaths _ "d" _ 2 rfl (by decide) (statReturns_of_all _ (by decide))
      (by decide)]; decide
  · rw [orb_openedPaths _ "d" _ 2 rfl (by decide) (statReturns_of_all _ (by decide))
      (by decide)]; decide
  · rw [sift_openedPaths _ "d" _ 2 (example_sift_returns _) rfl (by decide)
      (statReturns_of_all _ (by decide)) (by decide)]; decide
  · rw [sift_openedPaths _ "d" _ 2 (example_sift_returns _) rfl (by decide)
      (statReturns_of_all _ (by decide)) (by decide)]; decide

/-- Counterexample to C5 as stated: the extension `.Png` equals `.png` up
to case, yet the extension test of `loadFeatures` rejects it. -/
theorem extension_check_counterexample :
    ¬ (∀ e : DirEntry, e.isDirectory = .returns false →
        (wrongExtension e = false ↔ equalsIgnoreCase e.extension ".png" = true)) := by
  intro h
  have h2 := h ⟨"d/c.Png", ".Png", .returns false⟩ rfl
  revert h2
  decide

/-- Claim C5 as amended: an entry passes the extension test of `loadFeatures`
if and only if its extension is exactly `.png` or exactly `.PNG`.  A
non-directory entry that passes has its file opened next; one that fails is
skipped, with nothing but its progress line. -/
theorem extension_check_exact (e : DirEntry) :
    (wrongExtension e = false ↔ e.extension = ".png" ∨ e.extension = ".PNG") ∧
    (∀ (C E D : Type) (p : Pipeline C E D) (nimgs : Int) (st : ScanState C D),
      e.isDirectory = .returns false → wrongExtension e = false →
      ∃ rest, (loopBody p nimgs e st).state.trace =
        st.trace ++ Event.progress st.i nimgs :: Event.filename e.path :: rest) ∧
    (∀ (C E D : Type) (p : Pipeline C E D) (nimgs : Int) (st : ScanState C D),
      e.isDirectory = .returns false → wrongExtension e = true →
      loopBody p nimgs e st = .normal
        ⟨st.it + 1, toInt32 (st.i + 1), st.ctx, st.features,
          st.trace ++ [Event.progress st.i nimgs]⟩) := by
  refine ⟨?_, ?_, ?_⟩
  · simp only [wrongExtension, Bool.and_eq_false_iff, bne_eq_false_iff_eq]
  · intro C E D p nimgs st hd hw
    unfold loopBody
    simp only [hd, hw, Bool.false_eq_true, if_false]
    split
    · exact ⟨[], by simp [Flow.state]⟩
    · split
      · rename_i evs what hex
        exact ⟨evs, by simp [Flow.state]⟩
      · rename_i evs ctx descriptors hex
        split
        · exact ⟨evs, by simp [Flow.state]⟩
        · exact ⟨evs, by simp [Flow.state]⟩
  · intro C E D p nimgs st hd hw
    have hp : processed p e = false := by simp [processed, opened, hd, hw]
    rw [loopBody_skip p nimgs e st false hd hp]
    simp [opened, hd, hw]

/-- Witness of C5 as amended: `d/3.PNG` passes and is opened, `d/notes.txt`
is skipped. -/
theorem extension_check_exact_witness :
    (∃ rest, (loopBody (Orb.pipeline (Example.orbWorld [])) 2
        ⟨"d/3.PNG", ".PNG", .returns false⟩ ⟨0, 1, (), [], []⟩).state.trace =
      [] ++ Event.progress 1 2 :: Event.filename "d/3.PNG" :: rest) ∧
    loopBody (Orb.pipeline (Example.orbWorld [])) 2 ⟨"d/notes.txt", ".txt", .returns false⟩
        ⟨0, 1, (), [], []⟩ =
      .normal ⟨0 + 1, toInt32 (1 + 1), (), [], [] ++ [Event.progress 1 2]⟩ :=
  ⟨(extension_check_exact ⟨"d/3.PNG", ".PNG", .returns false⟩).2.1 Unit Byte (Mat Byte)
      (Orb.pipeline (Example.orbWorld [])) 2 ⟨0, 1, (), [], []⟩ rfl (by decide),
    (extension_check_exact ⟨"d/notes.txt", ".txt", .returns false⟩).2.2 Unit Byte (Mat Byte)
      (Orb.pipeline (Example.orbWorld [])) 2 ⟨0, 1, (), [], []⟩ rfl (by decide)⟩

set_option maxRecDepth 100000 in
/-- Counterexample to C6 as stated: a listing of one `.png` file that does
not decode leaves `features` empty, in both programs; no empty entry is
added. -/
theorem decode_failure_counterexample :
    wrongExtension ⟨"d/bad.png", ".png", .returns false⟩ = false ∧
    notLoaded (Example.imread "d/bad.png") = true ∧
    featuresOf (Orb.loadFeatures (Example.orbWorld [⟨"d/bad.png", ".png", .returns false⟩])
      "d" 1) = some [] ∧
    featuresOf (Sift.loadFeatures (Example.siftWorld [⟨"d/bad.png", ".png", .returns false⟩])
      "d" 1) = some [] := by
  refine ⟨by decide, by decide, by decide, by decide⟩

/-- Claim C6 as amended: a `.png` entry whose decoded image does not have
both dimensions positive adds no entry to `features`, and `loadFeatures`
continues with the next entry: the iteration ends normally with `features`
unchanged and the iterator advanced, and the loop goes on from there.  A run
that returns leaves the same `features` as a run that returns over the same
listing without that entry. -/
theorem decode_failure_skipped :
    (∀ (C E D : Type) (p : Pipeline C E D) (nimgs : Int) (e : DirEntry) (st : ScanState C D),
      e.isDirectory = .returns false → wrongExtension e = false →
      notLoaded (p.imread e.path) = true →
      loopBody p nimgs e st = .normal
        ⟨st.it + 1, toInt32 (st.i + 1), st.ctx, st.features,
          st.trace ++ [Event.progress st.i nimgs, Event.filename e.path]⟩ ∧
      ∀ (v : List DirEntry) (fuel : Nat), v[st.it]? = some e →
        scanLoop p nimgs v (fuel + 1) st = scanLoop p nimgs v fuel
          ⟨st.it + 1, toInt32 (st.i + 1), st.ctx, st.features,
            st.trace ++ [Event.progress st.i nimgs, Event.filename e.path]⟩) ∧
    (∀ (w : Orb.World) (dir : String) (front back : List DirEntry) (e : DirEntry)
        (fuel fuel2 : Nat) (r r2 : Loaded (Mat Byte)),
      e.isDirectory = .returns false → wrongExtension e = false →
      notLoaded (w.imread e.path) = true →
      w.listing dir = .ok (front ++ e :: back) →
      Orb.loadFeatures w dir fuel = some (.normal r) →
      Orb.loadFeatures { w with listing := fun _ => .ok (front ++ back) } dir fuel2
        = some (.normal r2) →
      r.features = r2.features) ∧
    (∀ (w : Sift.World) (dir : String) (front back : List DirEntry) (e : DirEntry)
        (fuel fuel2 : Nat) (r r2 : Loaded (List F32)),
      e.isDirectory = .returns false → wrongExtension e = false →
      notLoaded (w.imread e.path) = true →
      w.listing dir = .ok (front ++ e :: back) →
      Sift.loadFeatures w dir fuel = some (.normal r) →
      Sift.loadFeatures { w with listing := fun _ => .ok (front ++ back) } dir fuel2
        = some (.normal r2) →
      r.features = r2.features) := by
  refine ⟨?_, ?_, ?_⟩
  · intro C E D p nimgs e st hd hw hn
    have hp : processed p e = false := by simp [processed, opened, hd, hw, hn]
    have hb : loopBody p nimgs e st = .normal
        ⟨st.it + 1, toInt32 (st.i + 1), st.ctx, st.features,
          st.trace ++ [Event.progress st.i nimgs, Event.filename e.path]⟩ := by
      rw [loopBody_skip p nimgs e st false hd hp]
      simp [opened, hd, hw]
    refine ⟨hb, fun v fuel hget => ?_⟩
    have hlt : st.it < v.length := by
      by_contra hc
      rw [List.getElem?_eq_none (by omega)] at hget
      cases hget
    conv_lhs => unfold scanLoop
    simp only [Nat.ne_of_lt hlt, if_false, hget, hb]
  · intro w dir front back e fuel fuel2 r r2 hd hw hn hl h1 h2
    have hp : processed (Orb.pipeline w) e = false := by
      simp only [processed, opened, hd, hw, Bool.and_eq_false_iff]
      right; simpa [Orb.pipeline] using hn
    obtain ⟨s1, a1, e1⟩ := orb_loadFeatures_normal w dir _ fuel r hl h1
    obtain ⟨s2, a2, e2⟩ := orb_loadFeatures_normal
      { w with listing := fun _ => .ok (front ++ back) } dir _ fuel2 r2 rfl h2
    obtain ⟨_, f1, _⟩ := runBodies_features (Orb.pipeline w) _
      (orb_changeStructure_length w) _ _ s1 a1
    obtain ⟨_, f2, _⟩ := runBodies_features (Orb.pipeline w) _
      (orb_changeStructure_length w) _ _ s2 a2
    subst e1; subst e2
    simp only
    rw [f1, f2, corpusImages_skip _ front back e hp]
  · intro w dir front back e fuel fuel2 r r2 hd hw hn hl h1 h2
    have hp : processed (Sift.pipeline w) e = false := by
      simp only [processed, opened, hd, hw, Bool.and_eq_false_iff]
      right; simpa [Sift.pipeline] using hn
    obtain ⟨s1, a1, e1⟩ := sift_loadFeatures_normal w dir _ fuel r hl h1
    obtain ⟨s2, a2, e2⟩ := sift_loadFeatures_normal
      { w with listing := fun _ => .ok (front ++ back) } dir _ fuel2 r2 rfl h2
    obtain ⟨_, f1, _⟩ := runBodies_features (Sift.pipeline w) _
      (sift_changeStructure_length w) _ _ s1 a1
    obtain ⟨_, f2, _⟩ := runBodies_features (Sift.pipeline w) _
      (sift_changeStructure_length w) _ _ s2 a2
    subst e1; subst e2
    simp only
    rw [f1, f2, corpusImages_skip _ front back e hp]

set_option maxRecDepth 100000 in
/-- Witness of C6 as amended: an undecodable `d/bad.png` between two
readable images; both runs return, in both programs, with equal `features`. -/
theorem decode_failure_skipped_witness :
    loopBody (Orb.pipeline (Example.orbWorld [])) 1 ⟨"d/bad.png", ".png", .returns false⟩
        ⟨0, 1, (), [], []⟩ =
      .normal ⟨0 + 1, toInt32 (1 + 1), (), [],
        [] ++ [Event.progress 1 1, Event.filename "d/bad.png"]⟩ ∧
    (∃ r r2, Orb.loadFeatures (Example.orbWorld
          ([⟨"d/1.png", ".png", .returns false⟩] ++ ⟨"d/bad.png", ".png", .returns false⟩ ::
            [⟨"d/3.PNG", ".PNG", .returns false⟩])) "d" 3 = some (.normal r) ∧
        Orb.loadFeatures { Example.orbWorld
          ([⟨"d/1.png", ".png", .returns false⟩] ++ ⟨"d/bad.png", ".png", .returns false⟩ ::
            [⟨"d/3.PNG", ".PNG", .returns false⟩]) with
          listing := fun _ => .ok ([⟨"d/1.png", ".png", .returns false⟩] ++
            [⟨"d/3.PNG", ".PNG", .returns false⟩]) }
          "d" 2 = some (.normal r2) ∧
        r.features = r2.features) ∧
    (∃ r r2, Sift.loadFeatures (Example.siftWorld
          ([⟨"d/1.png", ".png", .returns false⟩] ++ ⟨"d/bad.png", ".png", .returns false⟩ ::
            [⟨"d/3.PNG", ".PNG", .returns false⟩])) "d" 3 = some (.normal r) ∧
        Sift.loadFeatures { Example.siftWorld
          ([⟨"d/1.png", ".png", .returns false⟩] ++ ⟨"d/bad.png", ".png", .returns false⟩ ::
            [⟨"d/3.PNG", ".PNG", .returns false⟩]) with
          listing := fun _ => .ok ([⟨"d/1.png", ".png", .returns false⟩] ++
            [⟨"d/3.PNG", ".PNG", .returns false⟩]) }
          "d" 2 = some (.normal r2) ∧
        r.features = r2.features) := by
  refine ⟨(decode_failure_skipped.1 Unit Byte (Mat Byte) (Orb.pipeline (Example.orbWorld []))
    1 ⟨"d/bad.png", ".png", .returns false⟩ ⟨0, 1, (), [], []⟩ rfl (by decide)
    (by decide)).1, ?_, ?_⟩
  · obtain ⟨r, h1⟩ := orb_loadFeatures_returns (Example.orbWorld
      ([⟨"d/1.png", ".png", .returns false⟩] ++ ⟨"d/bad.png", ".png", .returns false⟩ ::
        [⟨"d/3.PNG", ".PNG", .returns false⟩])) "d" _ 3 rfl (by decide)
      (statReturns_of_all _ (by decide)) (by decide)
    obtain ⟨r2, h2⟩ := orb_loadFeatures_returns { Example.orbWorld
      ([⟨"d/1.png", ".png", .returns false⟩] ++ ⟨"d/bad.png", ".png", .returns false⟩ ::
        [⟨"d/3.PNG", ".PNG", .returns false⟩]) with
      listing := fun _ => .ok ([⟨"d/1.png", ".png", .returns false⟩] ++
        [⟨"d/3.PNG", ".PNG", .returns false⟩]) } "d" _ 2 rfl (by decide)
      (statReturns_of_all _ (by decide)) (by decide)
    exact ⟨r, r2, h1, h2, decode_failure_skipped.2.1 (Example.orbWorld _) "d"
      [⟨"d/1.png", ".png", .returns false⟩] [⟨"d/3.PNG", ".PNG", .returns false⟩]
      ⟨"d/bad.png", ".png", .returns false⟩ 3 2 r r2 rfl (by decide) (by decide) rfl h1 h2⟩
  · obtain ⟨r, h1⟩ := sift_loadFeatures_returns (Example.siftWorld
      ([⟨"d/1.png", ".png", .returns false⟩] ++ ⟨"d/bad.png", ".png", .returns false⟩ ::
        [⟨"d/3.PNG", ".PNG", .returns false⟩])) "d" _ 3 (example_sift_returns _) rfl
      (by decide) (statReturns_of_all _ (by decide)) (by decide)
    obtain ⟨r2, h2⟩ := sift_loadFeatures_returns { Example.siftWorld
      ([⟨"d/1.png", ".png", .returns false⟩] ++ ⟨"d/bad.png", ".png", .returns false⟩ ::
        [⟨"d/3.PNG", ".PNG", .returns false⟩]) with
      listing := fun _ => .ok ([⟨"d/1.png", ".png", .returns false⟩] ++
        [⟨"d/3.PNG", ".PNG", .returns false⟩]) } "d" _ 2 (example_sift_returns _) rfl
      (by decide) (statReturns_of_all _ (by decide)) (by decide)
    exact ⟨r, r2, h1, h2, decode_failure_skipped.2.2 (Example.siftWorld _) "d"
      [⟨"d/1.png", ".png", .returns false⟩] [⟨"d/3.PNG", ".PNG", .returns false⟩]
      ⟨"d/bad.png", ".png", .returns false⟩ 3 2 r r2 rfl (by decide) (by decide) rfl h1 h2⟩

/-! ## Claim on `main` of `yaml_to_txt.cpp` -/

/-- Claim C7, evaluated on the code: when `voc.load` throws its
"Could not open file" string, `main` writes the diagnostic to standard
error, then goes on: it prints the "done" line, and calls `saveToTextFile`
on the vocabulary that was never loaded; the exit code is 0. -/
theorem convert_saves_after_failed_load :
    YamlToTxt.main Example.cannotOpen ["yaml_to_txt", "/missing"] =
      ([.stdout "Retrieving yaml vocabulary...",
        .stderr "Could not open file /missing/sift_voc.yml.gz",
        .stdout "... done! Vocabulary info: ", .stdoutVoc 0,
        .stdout "Saving vocabulary as txt...",
        .saveToTextFile 0 "/missing/SIFTvoc.txt"], some 0) := by
  decide

/-! ## Claim on the release of device memory -/

theorem imageEvents_counts (imgs : List Image) :
    (imgs.flatMap Sift.imageEvents).count Event.freeSiftData = 0 ∧
    (imgs.flatMap Sift.imageEvents).count Event.freeSiftTempMemory = imgs.length ∧
    (imgs.flatMap Sift.imageEvents).count (Event.initSiftData 2000) = 0 := by
  induction imgs with
  | nil => simp
  | cons img rest ih =>
    obtain ⟨h1, h2, h3⟩ := ih
    simp only [List.flatMap_cons, List.count_append, h1, h2, h3]
    refine ⟨?_, ?_, ?_⟩ <;> simp [Sift.imageEvents, List.count_cons]
    omega

theorem count_deviceEvents (trace : List Event) (ev : Event) (h : ev.render = none) :
    (deviceEvents trace).count ev = trace.count ev := by
  unfold deviceEvents
  rw [List.count_filter]
  simp [h]

set_option maxRecDepth 100000 in
/-- Counterexample to C8 as stated, three exits of `loadFeatures` on which
the `SiftData` context acquired by `InitSiftData` is never released: the
image directory does not exist and the traversal throws; `fs::is_directory`
throws on the first of two entries; `ExtractSift` does not return on the
first of two images, and then the temporary block is not released either. -/
theorem release_counterexample :
    (returned (Sift.loadFeatures Example.siftMissingDir "missing" 0) = false ∧
      deviceEvents (traceOf (Sift.loadFeatures Example.siftMissingDir "missing" 0))
        = [Event.initSiftData 2000]) ∧
    (returned (Sift.loadFeatures
        (Example.siftWorld [Example.loopLink, ⟨"d/1.png", ".png", .returns false⟩]) "d" 2)
        = false ∧
      deviceEvents (traceOf (Sift.loadFeatures
        (Example.siftWorld [Example.loopLink, ⟨"d/1.png", ".png", .returns false⟩]) "d" 2))
        = [Event.initSiftData 2000]) ∧
    (returned (Sift.loadFeatures Example.siftDeviceError "d" 2) = false ∧
      deviceEvents (traceOf (Sift.loadFeatures Example.siftDeviceError "d" 2))
        = [Event.initSiftData 2000, Event.cudaImageAllocate 1 6, Event.cudaImageDownload,
           Event.allocSiftTempMemory 2 12 5, Event.extractSift]) := by
  refine ⟨⟨by decide, by decide⟩, ⟨by decide, by decide⟩, ⟨by decide, by decide⟩⟩

/-- Claim C8 as amended: the device memory is released on every path on
which the library calls return.  Whenever `ExtractSift` returns, whatever it
found, the calls of `computeFeatures` are exactly: image set-up,
`AllocSiftTempMemory`, `ExtractSift`, `FreeSiftTempMemory`; the temporary
block is released exactly once, right after the extraction.  Whenever
`loadFeatures` returns, its device calls are exactly: `InitSiftData`, then
the calls of one `computeFeatures` per processed image, then `FreeSiftData`,
which is the last event of the run and is called exactly once, whatever mix
of directories, other files and undecodable images the listing held.
`loadFeatures` does return, given as many iterations as the listing has
entries, when the directory traversal succeeds with fewer than 2^31 - 1
entries, every `fs::is_directory` call returns and every `ExtractSift` call
returns with no more points than its host buffer holds. -/
theorem release_when_calls_return :
    (∀ (w : Sift.World) (I : Image) (s s2 : Sift.SiftData),
      w.extractSift s I = .ok s2 →
      (Sift.computeFeatures w I s).1 =
        [Event.cudaImageAllocate I.cols I.rows, Event.cudaImageDownload,
         Event.allocSiftTempMemory (I.cols * 2) (I.rows * 2) 5, Event.extractSift,
         Event.freeSiftTempMemory] ∧
      (Sift.computeFeatures w I s).1 = Sift.imageEvents I ∧
      (Sift.computeFeatures w I s).1.count Event.freeSiftTempMemory = 1) ∧
    (∀ (w : Sift.World) (dir : String) (v : List DirEntry) (fuel : Nat)
        (r : Loaded (List F32)),
      w.listing dir = .ok v → Sift.loadFeatures w dir fuel = some (.normal r) →
      deviceEvents r.trace =
        Event.initSiftData 2000 ::
          ((corpusImages (Sift.pipeline w) v).flatMap Sift.imageEvents ++
            [Event.freeSiftData]) ∧
      r.trace.getLast? = some Event.freeSiftData ∧
      r.trace.count Event.freeSiftData = 1 ∧
      r.trace.count (Event.initSiftData 2000) = 1 ∧
      r.trace.count Event.freeSiftTempMemory = (corpusImages (Sift.pipeline w) v).length) ∧
    (∀ (w : Sift.World) (dir : String) (v : List DirEntry) (fuel : Nat),
      w.Returns → w.listing dir = .ok v → v.length < 2147483647 → StatReturns v →
      v.length ≤ fuel → ∃ r, Sift.loadFeatures w dir fuel = some (.normal r)) := by
  refine ⟨?_, ?_, ?_⟩
  · intro w I s s2 hx
    simp only [Sift.computeFeatures, hx]
    exact ⟨rfl, rfl, by simp [List.count_cons]⟩
  · intro w dir v fuel r hl h
    obtain ⟨st2, hrun, hr⟩ := sift_loadFeatures_normal w dir v fuel r hl h
    have hdev := runBodies_device (Sift.pipeline w) _ Sift.imageEvents
      (sift_device_events w) v _ st2 hrun
    subst hr
    have hd : deviceEvents (st2.trace ++ [Event.freeSiftData]) =
        Event.initSiftData 2000 ::
          ((corpusImages (Sift.pipeline w) v).flatMap Sift.imageEvents ++
            [Event.freeSiftData]) := by
      have h0 : deviceEvents (st2.trace ++ [Event.freeSiftData]) =
          deviceEvents st2.trace ++ [Event.freeSiftData] := by
        simp only [deviceEvents, List.filter_append]
        rfl
      rw [h0, hdev]
      rfl
    obtain ⟨c1, c2, c3⟩ := imageEvents_counts (corpusImages (Sift.pipeline w) v)
    refine ⟨hd, by simp, ?_, ?_, ?_⟩
    · rw [← count_deviceEvents _ Event.freeSiftData rfl, hd]
      simp [List.count_cons, List.count_append, c1]
    · rw [← count_deviceEvents _ (Event.initSiftData 2000) rfl, hd]
      simp [List.count_cons, List.count_append, c3]
    · rw [← count_deviceEvents _ Event.freeSiftTempMemory rfl, hd]
      simp [List.count_cons, List.count_append, c2]
  · intro w dir v fuel hx hl hN hdir hf
    exact sift_loadFeatures_returns w dir v fuel hx hl hN hdir hf

set_option maxRecDepth 100000 in
/-- Witness of C8 as amended: the image of 6 rows, and a run over a
directory, a text file, an undecodable image and three images. -/
theorem release_when_calls_return_witness :
    ((Sift.computeFeatures (Example.siftWorld []) (Example.imread "d/1.png") ⟨0, 2000, []⟩).1
        = Sift.imageEvents (Example.imread "d/1.png")) ∧
    (∃ r, Sift.loadFeatures (Example.siftWorld (Example.mixedEntries ++ Example.threeImages))
          "d" 6 = some (.normal r) ∧
        deviceEvents r.trace =
          Event.initSiftData 2000 ::
            (Sift.imageEvents (Example.imread "d/1.png") ++
              Sift.imageEvents (Example.imread "d/2.png") ++
              Sift.imageEvents (Example.imread "d/3.PNG") ++ [Event.freeSiftData]) ∧
        r.trace.getLast? = some Event.freeSiftData ∧
        r.trace.count Event.freeSiftData = 1 ∧
        r.trace.count Event.freeSiftTempMemory = 3) := by
  refine ⟨(release_when_calls_return.1 (Example.siftWorld []) (Example.imread "d/1.png")
    ⟨0, 2000, []⟩ _ rfl).2.1, ?_⟩
  obtain ⟨r, h⟩ := release_when_calls_return.2.2
    (Example.siftWorld (Example.mixedEntries ++ Example.threeImages)) "d"
    (Example.mixedEntries ++ Example.threeImages) 6 (example_sift_returns _) rfl
    (by decide) (statReturns_of_all _ (by decide)) (by decide)
  obtain ⟨h1, h2, h3, _, h5⟩ := release_when_calls_return.2.1
    (Example.siftWorld (Example.mixedEntries ++ Example.threeImages)) "d"
    (Example.mixedEntries ++ Example.threeImages) 6 r rfl h
  exact ⟨r, h, h1.trans (by decide), h2, h3, h5.trans (by decide)⟩

/-! ## Claim on the scan loop -/

theorem progress_shift (nimgs : Int) (n : Nat) :
    (List.range n).map (fun (k : Nat) => ((1 : Int) + (k : Int), nimgs)) =
      (List.range n).map (fun (k : Nat) => ((k : Int) + 1, nimgs)) := by
  apply List.map_congr_left
  intro k _
  rw [add_comm]

theorem orb_reserve_throws (w : Orb.World) (dir : String) (v : List DirEntry) (fuel : Nat)
    (hl : w.listing dir = .ok v) (hlen : v.length = 2147483648) :
    Orb.loadFeatures w dir fuel = some (.raised ⟨[], []⟩ "std::length_error") := by
  have hneg : toInt32 (v.length : Int) < 0 := by
    rw [hlen]; unfold toInt32; omega
  simp only [Orb.loadFeatures, scanDirectory, hl, hneg, if_true]

set_option maxRecDepth 100000 in
/-- Counterexample to C10 as stated, three enumerations on which the loop
does not make `N` iterations.  Two entries, `fs::is_directory` throwing on
the first: the run is left by the exception after the line `1 of 2`.  Two
images, `ExtractSift` not returning on the first: again only `1 of 2`.
2^31 entries: `nimgs` is negative, `features.reserve(nimgs)` throws, and the
loop is never entered. -/
theorem scan_loop_counterexample :
    (returned (Orb.loadFeatures
        (Example.orbWorld [Example.loopLink, ⟨"d/1.png", ".png", .returns false⟩]) "d" 2)
        = false ∧
      (traceOf (Orb.loadFeatures
        (Example.orbWorld [Example.loopLink, ⟨"d/1.png", ".png", .returns false⟩]) "d" 2)
        ).filterMap Event.progress? = [(1, 2)]) ∧
    (returned (Sift.loadFeatures Example.siftDeviceError "d" 2) = false ∧
      (traceOf (Sift.loadFeatures Example.siftDeviceError "d" 2)).filterMap Event.progress?
        = [(1, 2)]) ∧
    (returned (Orb.loadFeatures (Example.orbWorld Example.hugeListing) "d" 2147483648)
        = false ∧
      (traceOf (Orb.loadFeatures (Example.orbWorld Example.hugeListing) "d" 2147483648)
        ).filterMap Event.progress? = []) := by
  have hrun := orb_reserve_throws (Example.orbWorld Example.hugeListing) "d"
    Example.hugeListing 2147483648 rfl (List.length_replicate _ _)
  refine ⟨⟨by decide, by decide⟩, ⟨by decide, by decide⟩, ?_, ?_⟩
  · rw [hrun]; rfl
  · rw [hrun]; rfl

/-- Claim C10 as amended: every iteration of the scan loop that ends
normally (directory, wrong extension, undecodable image, processed image)
advances the iterator by exactly one.  For an enumeration of `N` entries with
`N < 2^31 - 1` on which every `fs::is_directory` call returns (and, for SIFT,
every `ExtractSift` call returns with no more points than its host buffer
holds), the loop is the body run once on each entry in enumeration order; it
needs exactly `N` iterations (`N` suffice, fewer do not); it ends with the
iterator at the end; `loadFeatures` returns, having printed exactly the
progress lines `i of N` for `i = 1..N` in this order, `N` counting every
entry; and `features` has at most `N` entries. -/
theorem scan_loop_iterations :
    (∀ (C E D : Type) (p : Pipeline C E D) (nimgs : Int) (e : DirEntry)
        (st st2 : ScanState C D),
      loopBody p nimgs e st = .normal st2 → st2.it = st.it + 1) ∧
    (∀ (i nimgs : Int),
      Event.render (Event.progress i nimgs) = some (toString i ++ " of " ++ toString nimgs)) ∧
    (∀ (w : Orb.World) (dir : String) (v : List DirEntry),
      w.listing dir = .ok v → v.length < 2147483647 → StatReturns v →
      (∀ (fuel : Nat) (st : ScanState Unit (Mat Byte)), v.length ≤ fuel → st.it = 0 →
        ∃ st2, scanLoop (Orb.pipeline w) v.length v fuel st = some (.normal st2) ∧
          runBodies (Orb.pipeline w) v.length v st = .normal st2 ∧ st2.it = v.length) ∧
      (∀ fuel, fuel < v.length → Orb.loadFeatures w dir fuel = none) ∧
      (∀ fuel, v.length ≤ fuel →
        ∃ r, Orb.loadFeatures w dir fuel = some (.normal r) ∧
          r.trace.filterMap Event.progress? =
            (List.range v.length).map (fun (k : Nat) => ((k : Int) + 1, (v.length : Int))) ∧
          r.features.length ≤ v.length)) ∧
    (∀ (w : Sift.World) (dir : String) (v : List DirEntry),
      w.Returns → w.listing dir = .ok v → v.length < 2147483647 → StatReturns v →
      (∀ (fuel : Nat) (st : ScanState Sift.SiftData (List F32)), v.length ≤ fuel → st.it = 0 →
        ∃ st2, scanLoop (Sift.pipeline w) v.length v fuel st = some (.normal st2) ∧
          runBodies (Sift.pipeline w) v.length v st = .normal st2 ∧ st2.it = v.length) ∧
      (∀ fuel, fuel < v.length → Sift.loadFeatures w dir fuel = none) ∧
      (∀ fuel, v.length ≤ fuel →
        ∃ r, Sift.loadFeatures w dir fuel = some (.normal r) ∧
          r.trace.filterMap Event.progress? =
            (List.range v.length).map (fun (k : Nat) => ((k : Int) + 1, (v.length : Int))) ∧
          r.features.length ≤ v.length)) := by
  refine ⟨fun C E D p nimgs e st st2 h => loopBody_it p nimgs e st st2 h,
    fun i nimgs => rfl, ?_, ?_⟩
  · intro w dir v hl hN hdir
    have hR := orb_pipeline_reliable w
    refine ⟨?_, ?_, ?_⟩
    · intro fuel st hf hit
      obtain ⟨st2, h1⟩ := runBodies_returns (Orb.pipeline w) hR v.length v hdir st
      obtain ⟨h2, _⟩ := runBodies_features _ _ (orb_changeStructure_length w) v st st2 h1
      refine ⟨st2, ?_, h1, by rw [h2, hit]; simp⟩
      rw [scanLoop_eq_runBodies (Orb.pipeline w) v.length v v st fuel (by rw [hit]; rfl)
        (by omega) hf, h1]
    · intro fuel hf
      obtain ⟨st2, h1⟩ := runBodies_returns (Orb.pipeline w) hR v.length v hdir
        ⟨0, 1, (), [], [] ++ [Event.header "Extracting ORB features..."]⟩
      simp only [Orb.loadFeatures, hl,
        scanDirectory_short (Orb.pipeline w) _ v () [] fuel hN hf ⟨st2, h1⟩]
    · intro fuel hf
      obtain ⟨st2, h1⟩ := runBodies_returns (Orb.pipeline w) hR v.length v hdir
        ⟨0, 1, (), [], [Event.header "Extracting ORB features..."]⟩
      obtain ⟨_, _, h4, h5, _⟩ := runBodies_features _ _ (orb_changeStructure_length w)
        v _ st2 h1
      obtain ⟨_, hp⟩ := runBodies_progress (Orb.pipeline w) (orb_pipeline_quiet w) v.length v
        _ st2 h1 (by simp) (by simp only; omega)
      refine ⟨_, orb_loadFeatures_eq w dir v fuel hl hN hf st2 h1, ?_, ?_⟩
      · simp only [hp]
        simp only [List.filterMap_cons, Event.progress?, List.filterMap_nil, List.nil_append]
        exact progress_shift _ _
      · have h6 := congrArg List.length h4
        simp only [List.map_nil, List.nil_append, List.length_map, h5] at h6
        simp only [h6]
        exact corpusImages_length_le _ v
  · intro w dir v hx hl hN hdir
    have hR := sift_pipeline_reliable w hx
    refine ⟨?_, ?_, ?_⟩
    · intro fuel st hf hit
      obtain ⟨st2, h1⟩ := runBodies_returns (Sift.pipeline w) hR v.length v hdir st
      obtain ⟨h2, _⟩ := runBodies_features _ _ (sift_changeStructure_length w) v st st2 h1
      refine ⟨st2, ?_, h1, by rw [h2, hit]; simp⟩
      rw [scanLoop_eq_runBodies (Sift.pipeline w) v.length v v st fuel (by rw [hit]; rfl)
        (by omega) hf, h1]
    · intro fuel hf
      obtain ⟨st2, h1⟩ := runBodies_returns (Sift.pipeline w) hR v.length v hdir
        ⟨0, 1, w.initSiftData 2000, [],
          [Event.initSiftData 2000] ++ [Event.header "Extracting SIFT features..."]⟩
      simp only [Sift.loadFeatures, hl,
        scanDirectory_short (Sift.pipeline w) _ v _ [Event.initSiftData 2000] fuel hN hf
          ⟨st2, h1⟩]
    · intro fuel hf
      obtain ⟨st2, h1⟩ := runBodies_returns (Sift.pipeline w) hR v.length v hdir
        ⟨0, 1, w.initSiftData 2000, [],
          [Event.initSiftData 2000, Event.header "Extracting SIFT features..."]⟩
      obtain ⟨_, _, h4, h5, _⟩ := runBodies_features _ _ (sift_changeStructure_length w)
        v _ st2 h1
      obtain ⟨_, hp⟩ := runBodies_progress (Sift.pipeline w) (sift_pipeline_quiet w)
        v.length v _ st2 h1 (by simp) (by simp only; omega)
      refine ⟨_, sift_loadFeatures_eq w dir v fuel hl hN hf st2 h1, ?_, ?_⟩
      · simp only [List.filterMap_append, hp]
        simp only [List.filterMap_cons, Event.progress?, List.filterMap_nil, List.nil_append,
          List.append_nil]
        exact progress_shift _ _
      · have h6 := congrArg List.length h4
        simp only [List.map_nil, List.nil_append, List.length_map, h5] at h6
        simp only [h6]
        exact corpusImages_length_le _ v

set_option maxRecDepth 100000 in
/-- Witness of C10 as amended: a listing of six entries (a directory, a text
file, an undecodable image and three images): two iterations are too few,
six suffice, and the progress lines are `1 of 6` to `6 of 6`, in both
programs. -/
theorem scan_loop_iterations_witness :
    (Orb.loadFeatures (Example.orbWorld (Example.mixedEntries ++ Example.threeImages)) "d" 2
        = none ∧
      ∃ r, Orb.loadFeatures (Example.orbWorld (Example.mixedEntries ++ Example.threeImages))
          "d" 6 = some (.normal r) ∧
        r.trace.filterMap Event.progress? = [(1, 6), (2, 6), (3, 6), (4, 6), (5, 6), (6, 6)] ∧
        r.features.length ≤ 6) ∧
    (Sift.loadFeatures (Example.siftWorld (Example.mixedEntries ++ Example.threeImages)) "d" 2
        = none ∧
      ∃ r, Sift.loadFeatures (Example.siftWorld (Example.mixedEntries ++ Example.threeImages))
          "d" 6 = some (.normal r) ∧
        r.trace.filterMap Event.progress? = [(1, 6), (2, 6), (3, 6), (4, 6), (5, 6), (6, 6)] ∧
        r.features.length ≤ 6) := by
  have ho := scan_loop_iterations.2.2.1
    (Example.orbWorld (Example.mixedEntries ++ Example.threeImages)) "d"
    (Example.mixedEntries ++ Example.threeImages) rfl (by decide)
    (statReturns_of_all _ (by decide))
  have hs := scan_loop_iterations.2.2.2
    (Example.siftWorld (Example.mixedEntries ++ Example.threeImages)) "d"
    (Example.mixedEntries ++ Example.threeImages) (example_sift_returns _) rfl (by decide)
    (statReturns_of_all _ (by decide))
  refine ⟨⟨ho.2.1 2 (by decide), ?_⟩, ⟨hs.2.1 2 (by decide), ?_⟩⟩
  · obtain ⟨r, h1, h2, h3⟩ := ho.2.2 6 (by decide)
    exact ⟨r, h1, h2.trans (by decide), h3⟩
  · obtain ⟨r, h1, h2, h3⟩ := hs.2.2 6 (by decide)
    exact ⟨r, h1, h2.trans (by decide), h3⟩

end DBoW2
